import Mathlib

/-!
# Verification of the Keen outbound URL safety guard

Shallow embedding of the security-relevant parts of `kindle_menubar.py` and
`kindle_send.py` (the `keen` repository): the SSRF guard `check_url_ssrf`,
its helper `_is_public_ip`, the log-redaction helper `redact_url`, the caller
gate `is_valid_url`, the filename sanitizer `sanitize_filename`, and the
config loader `load_config`.

Strings are modelled as `List Char`.  The CPython standard-library
dependencies consumed by the source (`ipaddress`, `urllib.parse`,
`socket.getaddrinfo`) are modelled faithfully from their documented CPython
semantics; the system resolver is a parameter of the embedded guard.
-/

set_option autoImplicit false

namespace Keen

/-! ## Generic list helpers (Python string primitives) -/

/-- Python `str.split(sep)` for a single-character separator. -/
def splitOnChar (sep : Char) : List Char → List (List Char)
  | [] => [[]]
  | c :: rest =>
    let r := splitOnChar sep rest
    if c = sep then [] :: r
    else
      match r with
      | h :: t => (c :: h) :: t
      | [] => [[c]]

/-- The part of `l` strictly after the last occurrence of `sep`
(the whole list when `sep` does not occur); Python `l.rpartition(sep)[2]`. -/
def afterLast (sep : Char) (l : List Char) : List Char :=
  ((l.reverse).takeWhile (fun c => c != sep)).reverse

/-- The part of `l` up to and including the last occurrence of `sep`
(empty when `sep` does not occur). -/
def upToLast (sep : Char) (l : List Char) : List Char :=
  ((l.reverse).dropWhile (fun c => c != sep)).reverse

/-- Python `s.split(sep, 1)[0]`: everything before the first `sep`
(the whole list if absent). -/
def beforeFirst (sep : Char) (l : List Char) : List Char :=
  l.takeWhile (fun c => c != sep)

/-- Python `s.split(sep, 1)[1]`: everything after the first `sep`
(empty if absent). -/
def afterFirst (sep : Char) (l : List Char) : List Char :=
  (l.dropWhile (fun c => c != sep)).tail

/-! ## CPython `ipaddress` model

The source classifies addresses with `ipaddress.ip_address` and its boolean
properties.  We model IPv4 addresses as their 32-bit value and IPv6
addresses as their 128-bit value, with the parsing and classification rules
of CPython's `ipaddress` module (3.11-era semantics, per the
iana special-purpose registries). -/

/-- An IP address object as produced by `ipaddress.ip_address`. -/
inductive IPAddr where
  | v4 (n : Nat)
  | v6 (n : Nat)
  deriving DecidableEq, Repr

/-- Membership of a 32-bit address in a CIDR network `base/p`. -/
def inNet4 (n base p : Nat) : Bool :=
  n / 2 ^ (32 - p) = base / 2 ^ (32 - p)

/-- Membership of a 128-bit address in a CIDR network `base/p`. -/
def inNet6 (n base p : Nat) : Bool :=
  n / 2 ^ (128 - p) = base / 2 ^ (128 - p)

/-- CPython `IPv4Address.is_private`: the iana-ipv4-special-registry list
`0.0.0.0/8, 10.0.0.0/8, 127.0.0.0/8, 169.254.0.0/16, 172.16.0.0/12,
192.0.0.0/29, 192.0.0.170/31, 192.0.2.0/24, 192.168.0.0/16, 198.18.0.0/15,
198.51.100.0/24, 203.0.113.0/24, 240.0.0.0/4, 255.255.255.255/32`. -/
def ipv4IsPrivate (n : Nat) : Bool :=
  inNet4 n 0 8 ||
  inNet4 n 167772160 8 ||        -- 10.0.0.0/8
  inNet4 n 2130706432 8 ||       -- 127.0.0.0/8
  inNet4 n 2851995648 16 ||      -- 169.254.0.0/16
  inNet4 n 2886729728 12 ||      -- 172.16.0.0/12
  inNet4 n 3221225472 29 ||      -- 192.0.0.0/29
  inNet4 n 3221225642 31 ||      -- 192.0.0.170/31
  inNet4 n 3221225984 24 ||      -- 192.0.2.0/24
  inNet4 n 3232235520 16 ||      -- 192.168.0.0/16
  inNet4 n 3323068416 15 ||      -- 198.18.0.0/15
  inNet4 n 3325256704 24 ||      -- 198.51.100.0/24
  inNet4 n 3405803776 24 ||      -- 203.0.113.0/24
  inNet4 n 4026531840 4 ||       -- 240.0.0.0/4
  inNet4 n 4294967295 32         -- 255.255.255.255/32

/-- CPython `IPv4Address.is_global`: not in `100.64.0.0/10` and not private. -/
def ipv4IsGlobal (n : Nat) : Bool :=
  !inNet4 n 1681915904 10 && !ipv4IsPrivate n

/-- CPython `IPv4Address.is_loopback`: `127.0.0.0/8`. -/
def ipv4IsLoopback (n : Nat) : Bool := inNet4 n 2130706432 8

/-- CPython `IPv4Address.is_link_local`: `169.254.0.0/16`. -/
def ipv4IsLinkLocal (n : Nat) : Bool := inNet4 n 2851995648 16

/-- CPython `IPv4Address.is_multicast`: `224.0.0.0/4`. -/
def ipv4IsMulticast (n : Nat) : Bool := inNet4 n 3758096384 4

/-- CPython `IPv4Address.is_reserved`: `240.0.0.0/4`. -/
def ipv4IsReserved (n : Nat) : Bool := inNet4 n 4026531840 4

/-- CPython `IPv4Address.is_unspecified`: `0.0.0.0`. -/
def ipv4IsUnspecified (n : Nat) : Bool := n = 0

/-- CPython `IPv6Address.is_private`: the iana-ipv6-special-registry list
`::1/128, ::/128, ::ffff:0:0/96, 100::/64, 2001::/23, 2001:2::/48,
2001:db8::/32, 2001:10::/28, fc00::/7, fe80::/10`. -/
def ipv6IsPrivate (n : Nat) : Bool :=
  inNet6 n 1 128 ||
  inNet6 n 0 128 ||
  inNet6 n (0xffff * 2 ^ 32) 96 ||
  inNet6 n (0x100 * 2 ^ 112) 64 ||
  inNet6 n (0x2001 * 2 ^ 112) 23 ||
  inNet6 n (0x2001 * 2 ^ 112 + 0x2 * 2 ^ 80) 48 ||
  inNet6 n (0x2001 * 2 ^ 112 + 0xdb8 * 2 ^ 96) 32 ||
  inNet6 n (0x2001 * 2 ^ 112 + 0x10 * 2 ^ 96) 28 ||
  inNet6 n (0xfc00 * 2 ^ 112) 7 ||
  inNet6 n (0xfe80 * 2 ^ 112) 10

/-- CPython `IPv6Address.is_global`: not private. -/
def ipv6IsGlobal (n : Nat) : Bool := !ipv6IsPrivate n

/-- CPython `IPv6Address.is_loopback`: `::1`. -/
def ipv6IsLoopback (n : Nat) : Bool := n = 1

/-- CPython `IPv6Address.is_link_local`: `fe80::/10`. -/
def ipv6IsLinkLocal (n : Nat) : Bool := inNet6 n (0xfe80 * 2 ^ 112) 10

/-- CPython `IPv6Address.is_multicast`: `ff00::/8`. -/
def ipv6IsMulticast (n : Nat) : Bool := inNet6 n (0xff00 * 2 ^ 112) 8

/-- CPython `IPv6Address.is_reserved`: the `_reserved_networks` list. -/
def ipv6IsReserved (n : Nat) : Bool :=
  inNet6 n 0 8 ||
  inNet6 n (0x100 * 2 ^ 112) 8 ||
  inNet6 n (0x200 * 2 ^ 112) 7 ||
  inNet6 n (0x400 * 2 ^ 112) 6 ||
  inNet6 n (0x800 * 2 ^ 112) 5 ||
  inNet6 n (0x1000 * 2 ^ 112) 4 ||
  inNet6 n (0x4000 * 2 ^ 112) 3 ||
  inNet6 n (0x6000 * 2 ^ 112) 3 ||
  inNet6 n (0x8000 * 2 ^ 112) 3 ||
  inNet6 n (0xa000 * 2 ^ 112) 3 ||
  inNet6 n (0xc000 * 2 ^ 112) 3 ||
  inNet6 n (0xe000 * 2 ^ 112) 4 ||
  inNet6 n (0xf000 * 2 ^ 112) 5 ||
  inNet6 n (0xf800 * 2 ^ 112) 6 ||
  inNet6 n (0xfe00 * 2 ^ 112) 9

/-- CPython `IPv6Address.is_unspecified`: `::`. -/
def ipv6IsUnspecified (n : Nat) : Bool := n = 0

/-- `addr.is_global` on an `ipaddress` object. -/
def IPAddr.is_global : IPAddr → Bool
  | .v4 n => ipv4IsGlobal n
  | .v6 n => ipv6IsGlobal n

/-- `addr.is_private` on an `ipaddress` object. -/
def IPAddr.is_private : IPAddr → Bool
  | .v4 n => ipv4IsPrivate n
  | .v6 n => ipv6IsPrivate n

/-- `addr.is_loopback` on an `ipaddress` object. -/
def IPAddr.is_loopback : IPAddr → Bool
  | .v4 n => ipv4IsLoopback n
  | .v6 n => ipv6IsLoopback n

/-- `addr.is_link_local` on an `ipaddress` object. -/
def IPAddr.is_link_local : IPAddr → Bool
  | .v4 n => ipv4IsLinkLocal n
  | .v6 n => ipv6IsLinkLocal n

/-- `addr.is_multicast` on an `ipaddress` object. -/
def IPAddr.is_multicast : IPAddr → Bool
  | .v4 n => ipv4IsMulticast n
  | .v6 n => ipv6IsMulticast n

/-- `addr.is_reserved` on an `ipaddress` object. -/
def IPAddr.is_reserved : IPAddr → Bool
  | .v4 n => ipv4IsReserved n
  | .v6 n => ipv6IsReserved n

/-- `addr.is_unspecified` on an `ipaddress` object. -/
def IPAddr.is_unspecified : IPAddr → Bool
  | .v4 n => ipv4IsUnspecified n
  | .v6 n => ipv6IsUnspecified n

/-! ### `ipaddress.ip_address` string parsing -/

/-- Numeric value of a list of decimal digits. -/
def decVal (l : List Char) : Nat :=
  l.foldl (fun acc c => acc * 10 + (c.toNat - 48)) 0

/-- CPython `IPv4Address._parse_octet`: 1–3 ASCII decimal digits, no
leading zero, value at most 255. -/
def parseOctet (s : List Char) : Option Nat :=
  if s = [] then none
  else if !s.all Char.isDigit then none
  else if s.length > 3 then none
  else if s.length > 1 && s.head? = some '0' then none
  else if decVal s > 255 then none
  else some (decVal s)

/-- CPython `IPv4Address` string parsing: exactly four octets joined by dots. -/
def parseIPv4 (l : List Char) : Option Nat :=
  match (splitOnChar '.' l).mapM parseOctet with
  | some [a, b, c, d] => some (a * 16777216 + b * 65536 + c * 256 + d)
  | _ => none

/-- ASCII hexadecimal digit test (CPython `_parse_hextet` character set). -/
def isHexChar (c : Char) : Bool :=
  c.isDigit || ('a' ≤ c && c ≤ 'f') || ('A' ≤ c && c ≤ 'F')

/-- Value of one hexadecimal digit. -/
def hexDigitVal (c : Char) : Nat :=
  if c.isDigit then c.toNat - 48
  else if 'a' ≤ c && c ≤ 'f' then c.toNat - 87
  else c.toNat - 55

/-- Numeric value of a list of hexadecimal digits. -/
def hexVal (l : List Char) : Nat :=
  l.foldl (fun acc c => acc * 16 + hexDigitVal c) 0

/-- One `:`-separated group of an IPv6 address string: empty (from `::`),
a parsed 16-bit value, or malformed. -/
inductive Hextet where
  | empty
  | val (n : Nat)
  | bad
  deriving DecidableEq, Repr

/-- CPython `IPv6Address._parse_hextet` applied to one group
(with the empty group kept apart for the `::` logic). -/
def toHextet (s : List Char) : Hextet :=
  if s = [] then .empty
  else if s.all isHexChar && s.length ≤ 4 then .val (hexVal s)
  else .bad

/-- Extract the 16-bit values of a group list, failing on a malformed or
empty group. -/
def hextetVals : List Hextet → Option (List Nat)
  | [] => some []
  | .val n :: rest => (hextetVals rest).map (n :: ·)
  | _ => none

/-- Indices `1 .. len-2` holding an empty group (candidate `::` positions). -/
def emptyInterior (parts : List Hextet) : List Nat :=
  (List.range parts.length).filter
    (fun i => 0 < i && i + 1 < parts.length && parts.getD i .bad = .empty)

/-- Fold 16-bit groups into an integer, CPython's
`ip_int <<= 16; ip_int |= ...` loop. -/
def packHextets (vals : List Nat) (acc : Nat) : Nat :=
  vals.foldl (fun a v => a * 65536 + v) acc

/-- CPython `IPv6Address._ip_int_from_string` after the embedded-IPv4
rewrite: validates the `::` structure and packs the 128-bit value. -/
def assembleIPv6 (parts : List Hextet) : Option Nat :=
  if parts.length > 9 then none
  else
    match emptyInterior parts with
    | [] =>
      if parts.length = 8 then (hextetVals parts).map (packHextets · 0)
      else none
    | [i] =>
      let hi0 := i
      let lo0 := parts.length - i - 1
      let firstEmpty := parts.getD 0 .bad = .empty
      let lastEmpty := parts.getD (parts.length - 1) .bad = .empty
      let hi := if firstEmpty then hi0 - 1 else hi0
      let lo := if lastEmpty then lo0 - 1 else lo0
      if firstEmpty && hi ≠ 0 then none
      else if lastEmpty && lo ≠ 0 then none
      else if hi + lo ≥ 8 then none
      else
        match hextetVals (parts.take hi), hextetVals (parts.drop (parts.length - lo)) with
        | some hiVals, some loVals =>
          some (packHextets loVals (packHextets hiVals 0 * 2 ^ (16 * (8 - hi - lo))))
        | _, _ => none
    | _ => none

/-- CPython `IPv6Address` string parsing (without scope id): split on `:`,
rewrite an embedded dotted-quad final group, assemble. -/
def parseIPv6Core (l : List Char) : Option Nat :=
  let parts := splitOnChar ':' l
  if parts.length < 3 then none
  else
    match parts.getLast? with
    | none => none
    | some last =>
      if '.' ∈ last then
        match parseIPv4 last with
        | none => none
        | some v4 =>
          assembleIPv6 (parts.dropLast.map toHextet ++
            [.val (v4 / 65536), .val (v4 % 65536)])
      else assembleIPv6 (parts.map toHextet)

/-- CPython `IPv6Address` parsing including the `%scope_id` suffix
(scope must be non-empty; it does not affect classification). -/
def parseIPv6 (l : List Char) : Option Nat :=
  if '%' ∈ l then
    if afterFirst '%' l = [] then none
    else parseIPv6Core (beforeFirst '%' l)
  else parseIPv6Core l

/-- CPython `ipaddress.ip_address(str)`: IPv4 first, then IPv6, else a
`ValueError` (modelled as `none`). -/
def ip_address (l : List Char) : Option IPAddr :=
  match parseIPv4 l with
  | some n => some (.v4 n)
  | none =>
    match parseIPv6 l with
    | some n => some (.v6 n)
    | none => none

/-- `_is_public_ip` (kindle_menubar.py:65-74): `addr.is_global and not
(addr.is_private or addr.is_loopback or addr.is_link_local or
addr.is_reserved or addr.is_multicast or addr.is_unspecified)`. -/
def _is_public_ip (addr : IPAddr) : Bool :=
  addr.is_global && !(addr.is_private || addr.is_loopback ||
    addr.is_link_local || addr.is_reserved || addr.is_multicast ||
    addr.is_unspecified)

/-! ## CPython `urllib.parse` model

`urlparse` / `urlsplit` / `urlunparse` / `urlunsplit` and the `hostname`
accessor, following the CPython 3.11 implementation.  The only exception
`urlsplit` can raise on a plain string is the mismatched-bracket
`ValueError("Invalid IPv6 URL")`, modelled through `Except String`. -/

/-- ASCII lower-casing of one character (`str.lower` on the ASCII range,
code points 65-90 mapping to 97-122). -/
def pyLowerChar (c : Char) : Char :=
  if 65 ≤ c.toNat ∧ c.toNat ≤ 90 then Char.ofNat (c.toNat + 32) else c

/-- CPython `scheme_chars`: ASCII letters (65-90, 97-122), digits (48-57),
`+` (43), `-` (45), `.` (46), stated by code point. -/
def isSchemeChar (c : Char) : Bool :=
  (65 ≤ c.toNat && c.toNat ≤ 90) || (97 ≤ c.toNat && c.toNat ≤ 122) ||
  (48 ≤ c.toNat && c.toNat ≤ 57) ||
  c.toNat = 43 || c.toNat = 45 || c.toNat = 46

/-- The scheme first-character test of `urlsplit`
(`url[0].isascii() and url[0].isalpha()`): an ASCII letter, by code point. -/
def isAsciiAlpha (c : Char) : Bool :=
  (65 ≤ c.toNat && c.toNat ≤ 90) || (97 ≤ c.toNat && c.toNat ≤ 122)

/-- `urlsplit` input cleaning: `lstrip` of C0 controls and space, then
removal of every tab, carriage return and newline. -/
def cleanUrl (l : List Char) : List Char :=
  (l.dropWhile (fun c => c.toNat ≤ 32)).filter
    (fun c => !(c = '\t' || c = '\r' || c = '\n'))

/-- `urlsplit` scheme detection: the text before the first `:` is taken as
the scheme (lower-cased) when it is non-empty, starts with an ASCII letter
and consists of scheme characters; otherwise the URL is left whole. -/
def splitScheme (l : List Char) : List Char × List Char :=
  match l.dropWhile (fun c => c != ':'), l.takeWhile (fun c => c != ':') with
  | _ :: rest, c :: cs =>
    if isAsciiAlpha c && (c :: cs).all isSchemeChar then
      ((c :: cs).map pyLowerChar, rest)
    else ([], l)
  | _, _ => ([], l)

/-- A character ending the netloc in `_splitnetloc` (`/`, `?` or `#`). -/
def notNetlocDelim (c : Char) : Bool :=
  !(c = '/' || c = '?' || c = '#')

/-- The `Invalid IPv6 URL` bracket consistency check of `urlsplit`. -/
def bracketsMismatched (netloc : List Char) : Bool :=
  (netloc.contains '[' && !netloc.contains ']') ||
  (netloc.contains ']' && !netloc.contains '[')

/-- `url.split('#', 1)` as used for the fragment (no-op when `#` absent). -/
def splitHash (l : List Char) : List Char × List Char :=
  if l.contains '#' then (beforeFirst '#' l, afterFirst '#' l) else (l, [])

/-- `url.split('?', 1)` as used for the query (no-op when `?` absent). -/
def splitQmark (l : List Char) : List Char × List Char :=
  if l.contains '?' then (beforeFirst '?' l, afterFirst '?' l) else (l, [])

/-- Result of `urlsplit`. -/
structure SplitResult where
  scheme : List Char
  netloc : List Char
  path : List Char
  query : List Char
  fragment : List Char
  deriving DecidableEq, Repr

/-- After the netloc split: the bracket check, then the fragment and query
splits of `urlsplit`, on netloc `n` and remainder `u2`. -/
def urlsplitRest (n u2 : List Char) :
    Except String (List Char × List Char × List Char × List Char) :=
  if bracketsMismatched n then .error "Invalid IPv6 URL"
  else
    .ok (n, (splitQmark (splitHash u2).1).1, (splitQmark (splitHash u2).1).2,
      (splitHash u2).2)

/-- The scheme-independent tail of `urlsplit` applied to the text after
the scheme: netloc extraction (when the text starts with `//`) followed by
`urlsplitRest`.  Returns `(netloc, path, query, fragment)`. -/
def urlsplitBody (url1 : List Char) :
    Except String (List Char × List Char × List Char × List Char) :=
  if url1.take 2 = ['/', '/'] then
    urlsplitRest ((url1.drop 2).takeWhile notNetlocDelim)
      ((url1.drop 2).dropWhile notNetlocDelim)
  else urlsplitRest [] url1

/-- CPython `urllib.parse.urlsplit` (with `allow_fragments=True`): input
cleaning, scheme detection, then the scheme-independent body.  The bracket
check runs only when a netloc was taken in CPython; since the netloc is
empty otherwise and the check accepts the empty netloc, it is applied
unconditionally here. -/
def urlsplitChars (l : List Char) : Except String SplitResult :=
  match urlsplitBody (splitScheme (cleanUrl l)).2 with
  | .error e => .error e
  | .ok (n, p, q, f) => .ok ⟨(splitScheme (cleanUrl l)).1, n, p, q, f⟩

/-- CPython `_splitparams`: split `;params` from the last path segment. -/
def splitparams (l : List Char) : List Char × List Char :=
  if l.contains '/' then
    if (afterLast '/' l).contains ';' then
      (upToLast '/' l ++ beforeFirst ';' (afterLast '/' l),
       afterFirst ';' (afterLast '/' l))
    else (l, [])
  else if l.contains ';' then (beforeFirst ';' l, afterFirst ';' l)
  else (l, [])

/-- CPython `uses_params`: schemes for which `urlparse` splits params. -/
def usesParams : List (List Char) :=
  [[], "ftp".data, "hdl".data, "prospero".data, "http".data, "imap".data,
   "https".data, "shttp".data, "rtsp".data, "rtspu".data, "sip".data,
   "sips".data, "mms".data, "sftp".data, "tel".data]

/-- Result of `urlparse`. -/
structure ParseResult where
  scheme : List Char
  netloc : List Char
  path : List Char
  params : List Char
  query : List Char
  fragment : List Char
  deriving DecidableEq, Repr

/-- CPython `urllib.parse.urlparse`: `urlsplit` plus the params split for
schemes in `uses_params`. -/
def urlparseChars (l : List Char) : Except String ParseResult :=
  match urlsplitChars l with
  | .error e => .error e
  | .ok r =>
    if usesParams.contains r.scheme && r.path.contains ';' then
      (fun pp => .ok ⟨r.scheme, r.netloc, pp.1, pp.2, r.query, r.fragment⟩)
        (splitparams r.path)
    else .ok ⟨r.scheme, r.netloc, r.path, [], r.query, r.fragment⟩

/-- The `hostname` accessor of a parse result: userinfo dropped (text up to
the last `@`), brackets stripped for an IPv6 netloc, port dropped,
lower-cased; `None` when empty. -/
def netlocHostname (netloc : List Char) : Option (List Char) :=
  let hostinfo := afterLast '@' netloc
  let host :=
    if hostinfo.contains '[' then
      (afterFirst '[' hostinfo).takeWhile (fun c => c != ']')
    else hostinfo.takeWhile (fun c => c != ':')
  if host = [] then none else some (host.map pyLowerChar)

/-- CPython `urllib.parse.urlunsplit`. -/
def urlunsplitChars (scheme netloc url query fragment : List Char) : List Char :=
  let url1 :=
    if netloc ≠ [] ∨ url.take 2 = ['/', '/'] then
      '/' :: '/' :: (netloc ++
        (if url ≠ [] ∧ url.head? ≠ some '/' then '/' :: url else url))
    else url
  let url2 := if scheme ≠ [] then scheme ++ ':' :: url1 else url1
  let url3 := if query ≠ [] then url2 ++ '?' :: query else url2
  if fragment ≠ [] then url3 ++ '#' :: fragment else url3

/-- CPython `urllib.parse.urlunparse`. -/
def urlunparseChars (scheme netloc url params query fragment : List Char) :
    List Char :=
  urlunsplitChars scheme netloc
    (if params ≠ [] then url ++ ';' :: params else url) query fragment

/-! ## The source functions under verification -/

/-- `redact_url` (kindle_menubar.py:44-50): re-assemble scheme, netloc and
path only; any parse exception yields the placeholder string. -/
def redact_url (url : List Char) : List Char :=
  match urlparseChars url with
  | .ok parsed => urlunparseChars parsed.scheme parsed.netloc parsed.path [] [] []
  | .error _ => "<unparseable-url>".data

/-- `is_valid_url` (kindle_menubar.py:228-231):
`parsed.scheme in {"http", "https"} and bool(parsed.netloc)`.  The
`urlparse` call is outside any handler, so its exception propagates. -/
def is_valid_url (url : List Char) : Except String Bool :=
  match urlparseChars url with
  | .error e => .error e
  | .ok parsed =>
    .ok ((parsed.scheme == "http".data || parsed.scheme == "https".data) &&
      !parsed.netloc.isEmpty)

/-- A failure of `socket.getaddrinfo`: either a `socket.gaierror` (the only
exception `check_url_ssrf` catches, kindle_menubar.py:98), or a
`UnicodeError` raised by the `idna` codec when a non-ASCII hostname has an
empty or over-long label (e.g. `"label empty or too long"`), which is not a
`gaierror` and therefore propagates out of `check_url_ssrf` uncaught. -/
inductive ResolveErr where
  | gaierror
  | unicode (msg : String)

/-- The system resolver interface used by `check_url_ssrf`
(`socket.getaddrinfo(hostname, None, proto=socket.IPPROTO_TCP)`): a
`ResolveErr` failure or the list of `sockaddr[0]` address strings. -/
abbrev Resolver := List Char → Except ResolveErr (List (List Char))

/-- The per-address loop of `check_url_ssrf` (kindle_menubar.py:104-111):
re-parse each resolved address string and reject the first non-public one. -/
def checkResolved : List (List Char) → Option String
  | [] => none
  | ipStr :: rest =>
    match ip_address ipStr with
    | none => some ("Unparseable resolved IP: " ++ ipStr.asString)
    | some addr =>
      if !_is_public_ip addr then some "URL resolves to a non-public IP address"
      else checkResolved rest

/-- The resolution stage of `check_url_ssrf` (kindle_menubar.py:95-113):
`except socket.gaierror` turns a `gaierror` into a rejection, while a
`UnicodeError` out of `getaddrinfo` matches no handler and propagates
(the `.error` case). -/
def resolveAndCheck (resolve : Resolver) (hostname : List Char) :
    Except String (Option String) :=
  match resolve hostname with
  | .error .gaierror => .ok (some "DNS resolution failed for URL hostname")
  | .error (.unicode msg) => .error msg
  | .ok addrinfos =>
    if addrinfos = [] then .ok (some "DNS resolution returned no results")
    else .ok (checkResolved addrinfos)

/-- The decision core of `check_url_ssrf` on an already-parsed URL
(kindle_menubar.py:83-113).  `.ok none` means allowed, `.error` an
uncaught exception.  Note that a public literal hostname does not return
early: the code falls through to the `getaddrinfo` call. -/
def ssrfDecision (resolve : Resolver) (parsed : ParseResult) :
    Except String (Option String) :=
  match netlocHostname parsed.netloc with
  | none => .ok (some "URL has no hostname")
  | some hostname =>
    match ip_address hostname with
    | some literal =>
      if !_is_public_ip literal then
        .ok (some "URL points to a non-public IP address")
      else resolveAndCheck resolve hostname
    | none => resolveAndCheck resolve hostname

/-- `check_url_ssrf` (kindle_menubar.py:77-113).  `None` means allowed.
The `.error` case covers both uncaught exception paths: the `urlparse`
`ValueError` and the resolver's `UnicodeError`. -/
def check_url_ssrf (resolve : Resolver) (url : List Char) :
    Except String (Option String) :=
  match urlparseChars url with
  | .error e => .error e
  | .ok parsed => ssrfDecision resolve parsed

/-! ## `sanitize_filename` (kindle_send.py:132-138) and
`KindleSendApp._sanitize_filename` (kindle_menubar.py:618-622), identical
bodies: `re.sub(r'[<>:"/\\|?*]', "", title)`, two removals of the ASCII
apostrophe, truncation to 100 characters, `str.strip()`. -/

/-- A character matched by the class `[<>:"/\\|?*]`. -/
def filenameBadChar (c : Char) : Bool :=
  c = '<' || c = '>' || c = ':' || c = '"' || c = '/' || c = '\\' ||
  c = '|' || c = '?' || c = '*'

/-- The whitespace set of Python `str.strip()` (Unicode whitespace). -/
def pyIsSpace (c : Char) : Bool :=
  c.toNat = 32 || (9 ≤ c.toNat && c.toNat ≤ 13) ||
  (28 ≤ c.toNat && c.toNat ≤ 31) || c.toNat = 133 || c.toNat = 160 ||
  c.toNat = 5760 || (8192 ≤ c.toNat && c.toNat ≤ 8202) ||
  c.toNat = 8232 || c.toNat = 8233 || c.toNat = 8239 || c.toNat = 8287 ||
  c.toNat = 12288

/-- Python `str.strip()`. -/
def pyStrip (l : List Char) : List Char :=
  ((l.dropWhile pyIsSpace).reverse.dropWhile pyIsSpace).reverse

/-- `sanitize_filename` / `_sanitize_filename`. -/
def sanitize_filename (title : List Char) : List Char :=
  let s1 := title.filter (fun c => !filenameBadChar c)
  let s2 := (s1.filter (fun c => c ≠ Char.ofNat 39)).filter
    (fun c => c ≠ Char.ofNat 39)
  pyStrip (s2.take 100)

/-! ## Config loading (kindle_menubar.py:254-280) with the keychain
migration (kindle_menubar.py:132-145).

Python dicts are modelled as association lists with unique keys kept by
the update operation; the environment, the on-disk config file and the
keychain write outcome are explicit parameters. -/

/-- A JSON-compatible config value (only its truthiness matters here). -/
inductive PyVal where
  | str (s : String)
  | int (n : Int)
  deriving DecidableEq, Repr

/-- Python truthiness of a config value. -/
def pyTruthy : PyVal → Bool
  | .str s => s ≠ ""
  | .int n => n ≠ 0

/-- A Python dict with string keys. -/
abbrev PyDict := List (String × PyVal)

/-- `d[k] = v`: overwrite in place or append. -/
def dictSet (d : PyDict) (k : String) (v : PyVal) : PyDict :=
  if d.any (fun p => p.1 = k) then
    d.map (fun p => if p.1 = k then (k, v) else p)
  else d ++ [(k, v)]

/-- `d.update(entries)`. -/
def dictUpdate (d : PyDict) (entries : List (String × PyVal)) : PyDict :=
  entries.foldl (fun acc p => dictSet acc p.1 p.2) d

/-- `d.pop(k, None)` (the resulting dict). -/
def dictPop (d : PyDict) (k : String) : PyDict :=
  d.filter (fun p => p.1 ≠ k)

/-- `d.get(k, dflt)`. -/
def dictGet (d : PyDict) (k : String) (dflt : PyVal) : PyVal :=
  match d.find? (fun p => p.1 = k) with
  | some p => p.2
  | none => dflt

/-- `k in d` as a lookup (`some` when the key is present). -/
def dictLookup (d : PyDict) (k : String) : Option PyVal :=
  (d.find? (fun p => p.1 = k)).map (fun p => p.2)

/-- The environment variables read by `load_config`
(`SMTP_PORT` carried as the already-converted integer). -/
structure EnvState where
  kindle_email : Option String
  smtp_email : Option String
  smtp_server : Option String
  smtp_port : Option Int

/-- The state of `config.json`: missing, unreadable/undecodable (the
caught `FileNotFoundError`/`JSONDecodeError`/`OSError` cases), or a JSON
object. -/
inductive ConfigFile where
  | absent
  | unreadable
  | object (entries : List (String × PyVal))

/-- `migrate_password_to_keyring` (kindle_menubar.py:132-145): when the
dict holds a truthy `smtp_password` and a truthy `smtp_email`, store the
password in the keychain and pop it; a keychain failure
(`set_smtp_password` raising) leaves the dict unchanged. -/
def migrate_password_to_keyring (keyringOk : Bool) (config : PyDict) : PyDict :=
  if pyTruthy (dictGet config "smtp_password" (.str "")) &&
     pyTruthy (dictGet config "smtp_email" (.str "")) then
    if keyringOk then dictPop config "smtp_password" else config
  else config

/-- `load_config` (kindle_menubar.py:254-280): defaults from the
environment, overlaid with the saved file when readable, migrated, and
finally stripped of `smtp_password`. -/
def load_config (env : EnvState) (file : ConfigFile) (keyringOk : Bool) :
    PyDict :=
  let config : PyDict :=
    [("kindle_email", .str (env.kindle_email.getD "")),
     ("smtp_email", .str (env.smtp_email.getD "")),
     ("smtp_server", .str (env.smtp_server.getD "smtp.gmail.com")),
     ("smtp_port", .int (env.smtp_port.getD 587))]
  let config :=
    match file with
    | .object entries => dictUpdate config entries
    | _ => config
  let config := migrate_password_to_keyring keyringOk config
  dictPop config "smtp_password"

/-! ## Generic list lemmas -/

theorem mem_of_mem_takeWhile {α : Type} {p : α → Bool} :
    ∀ {l : List α} {c : α}, c ∈ l.takeWhile p → c ∈ l := by
  intro l
  induction l with
  | nil => intro c h; simp at h
  | cons a t ih =>
    intro c h
    rw [List.takeWhile_cons] at h
    by_cases hp : p a
    · rw [if_pos hp] at h
      rcases List.mem_cons.mp h with h | h
      · simp [h]
      · exact List.mem_cons_of_mem _ (ih h)
    · rw [if_neg hp] at h
      simp at h

theorem mem_of_mem_dropWhile {α : Type} {p : α → Bool} :
    ∀ {l : List α} {c : α}, c ∈ l.dropWhile p → c ∈ l := by
  intro l
  induction l with
  | nil => intro c h; simp at h
  | cons a t ih =>
    intro c h
    rw [List.dropWhile_cons] at h
    by_cases hp : p a
    · rw [if_pos hp] at h
      exact List.mem_cons_of_mem _ (ih h)
    · rw [if_neg hp] at h
      exact h

theorem head?_dropWhile_false {α : Type} {p : α → Bool} :
    ∀ {l : List α} {c : α}, (l.dropWhile p).head? = some c → p c = false := by
  intro l
  induction l with
  | nil => intro c h; simp at h
  | cons a t ih =>
    intro c h
    rw [List.dropWhile_cons] at h
    by_cases hp : p a
    · rw [if_pos hp] at h
      exact ih h
    · rw [if_neg hp] at h
      simp only [List.head?_cons, Option.some.injEq] at h
      subst h
      exact Bool.eq_false_iff.mpr hp

theorem takeWhile_append_of_all {α : Type} {p : α → Bool} :
    ∀ {a : List α} (b : List α), (∀ c ∈ a, p c = true) →
      (a ++ b).takeWhile p = a ++ b.takeWhile p := by
  intro a
  induction a with
  | nil => intro b _; simp
  | cons x t ih =>
    intro b h
    have hx : p x = true := h x (by simp)
    simp only [List.cons_append, List.takeWhile_cons, hx, if_pos]
    rw [ih b (fun c hc => h c (List.mem_cons_of_mem _ hc))]

theorem dropWhile_append_of_all {α : Type} {p : α → Bool} :
    ∀ {a : List α} (b : List α), (∀ c ∈ a, p c = true) →
      (a ++ b).dropWhile p = b.dropWhile p := by
  intro a
  induction a with
  | nil => intro b _; simp
  | cons x t ih =>
    intro b h
    have hx : p x = true := h x (by simp)
    simp only [List.cons_append, List.dropWhile_cons, hx, if_pos]
    exact ih b (fun c hc => h c (List.mem_cons_of_mem _ hc))

theorem dropWhile_eq_cons_of_mem {c : Char} :
    ∀ {l : List Char}, c ∈ l →
      l.dropWhile (fun x => x != c) =
        c :: (l.dropWhile (fun x => x != c)).tail := by
  intro l
  induction l with
  | nil => intro h; simp at h
  | cons a t ih =>
    intro h
    by_cases hac : a = c
    · subst hac
      simp [List.dropWhile_cons]
    · have hm : c ∈ t := by
        rcases List.mem_cons.mp h with h | h
        · exact absurd h.symm hac
        · exact h
      have hne : (a != c) = true := bne_iff_ne.mpr hac
      simp only [List.dropWhile_cons, hne, if_pos]
      exact ih hm

/-- Decomposition of a list at the first occurrence of a character. -/
theorem beforeFirst_append_afterFirst {c : Char} {l : List Char} (h : c ∈ l) :
    beforeFirst c l ++ c :: afterFirst c l = l := by
  unfold beforeFirst afterFirst
  rw [← dropWhile_eq_cons_of_mem h]
  exact List.takeWhile_append_dropWhile _ _

theorem not_mem_beforeFirst {c : Char} {l : List Char} :
    ∀ x ∈ beforeFirst c l, x ≠ c := by
  intro x hx
  rw [beforeFirst] at hx
  have h := @List.mem_takeWhile_imp _ _ _ _ hx
  exact bne_iff_ne.mp h

/-- Decomposition of a list at the last occurrence of a character. -/
theorem upToLast_append_afterLast (c : Char) (l : List Char) :
    upToLast c l ++ afterLast c l = l := by
  unfold upToLast afterLast
  rw [← List.reverse_append, List.takeWhile_append_dropWhile, List.reverse_reverse]

theorem not_mem_afterLast {c : Char} {l : List Char} :
    ∀ x ∈ afterLast c l, x ≠ c := by
  intro x hx
  rw [afterLast, List.mem_reverse] at hx
  have h := @List.mem_takeWhile_imp _ _ _ _ hx
  exact bne_iff_ne.mp h

theorem getLast?_reverse' {α : Type} (l : List α) :
    l.reverse.getLast? = l.head? := by
  rw [← List.head?_reverse, List.reverse_reverse]

theorem getLast?_upToLast {c : Char} {l : List Char} (h : c ∈ l) :
    (upToLast c l).getLast? = some c := by
  unfold upToLast
  rw [getLast?_reverse']
  rw [dropWhile_eq_cons_of_mem (List.mem_reverse.mpr h)]
  rfl

theorem mem_of_mem_afterLast {c : Char} {l : List Char} {x : Char}
    (h : x ∈ afterLast c l) : x ∈ l := by
  rw [afterLast, List.mem_reverse] at h
  exact List.mem_reverse.mp (mem_of_mem_takeWhile h)

theorem mem_of_mem_upToLast {c : Char} {l : List Char} {x : Char}
    (h : x ∈ upToLast c l) : x ∈ l := by
  rw [upToLast, List.mem_reverse] at h
  exact List.mem_reverse.mp (mem_of_mem_dropWhile h)

/-! ## Character-level facts for the URL round trip -/

theorem toNat_ofNat_of_valid {n : Nat} (h : n.isValidChar) :
    (Char.ofNat n).toNat = n := by
  unfold Char.ofNat
  rw [dif_pos h]
  rfl

theorem toNat_pyLowerChar (c : Char) :
    (pyLowerChar c).toNat =
      if 65 ≤ c.toNat ∧ c.toNat ≤ 90 then c.toNat + 32 else c.toNat := by
  by_cases h : 65 ≤ c.toNat ∧ c.toNat ≤ 90
  · rw [if_pos h]
    unfold pyLowerChar
    rw [if_pos h]
    exact toNat_ofNat_of_valid (Or.inl (by omega))
  · rw [if_neg h]
    unfold pyLowerChar
    rw [if_neg h]

theorem pyLowerChar_eq_self {c : Char} (h : ¬(65 ≤ c.toNat ∧ c.toNat ≤ 90)) :
    pyLowerChar c = c := by
  unfold pyLowerChar
  rw [if_neg h]

theorem pyLowerChar_idem (c : Char) :
    pyLowerChar (pyLowerChar c) = pyLowerChar c := by
  apply pyLowerChar_eq_self
  rw [toNat_pyLowerChar]
  by_cases h : 65 ≤ c.toNat ∧ c.toNat ≤ 90
  · rw [if_pos h]
    omega
  · rw [if_neg h]
    exact h

theorem isSchemeChar_pyLowerChar {c : Char} (h : isSchemeChar c = true) :
    isSchemeChar (pyLowerChar c) = true := by
  simp only [isSchemeChar, Bool.or_eq_true, Bool.and_eq_true,
    decide_eq_true_eq] at h ⊢
  rw [toNat_pyLowerChar]
  by_cases h65 : 65 ≤ c.toNat ∧ c.toNat ≤ 90
  · rw [if_pos h65]
    omega
  · rw [if_neg h65]
    omega

theorem isAsciiAlpha_pyLowerChar {c : Char} (h : isAsciiAlpha c = true) :
    isAsciiAlpha (pyLowerChar c) = true := by
  simp only [isAsciiAlpha, Bool.or_eq_true, Bool.and_eq_true,
    decide_eq_true_eq] at h ⊢
  rw [toNat_pyLowerChar]
  by_cases h65 : 65 ≤ c.toNat ∧ c.toNat ≤ 90
  · rw [if_pos h65]
    omega
  · rw [if_neg h65]
    omega

theorem isSchemeChar_gt32 {c : Char} (h : isSchemeChar c = true) :
    32 < c.toNat := by
  simp only [isSchemeChar, Bool.or_eq_true, Bool.and_eq_true,
    decide_eq_true_eq] at h
  omega

theorem isSchemeChar_ne {c : Char} (h : isSchemeChar c = true) :
    (c != ':') = true ∧ c ≠ '/' ∧ c ≠ '?' ∧ c ≠ '#' := by
  refine ⟨bne_iff_ne.mpr ?_, ?_, ?_, ?_⟩ <;>
    intro he <;> rw [he] at h <;> exact absurd h (by decide)

/-- The keep-predicate of the tab/CR/LF removal in `cleanUrl`. -/
theorem keepChar_of_gt32 {c : Char} (h : 32 < c.toNat) :
    (!(c = '\t' || c = '\r' || c = '\n')) = true := by
  simp only [Bool.not_eq_true', Bool.or_eq_false_iff, decide_eq_false_iff_not]
  refine ⟨⟨?_, ?_⟩, ?_⟩ <;> intro he <;> rw [he] at h <;>
    exact absurd h (by decide)

theorem contains_iff_mem {l : List Char} {c : Char} :
    l.contains c = true ↔ c ∈ l := List.elem_iff

theorem contains_eq_false_iff {l : List Char} {c : Char} :
    l.contains c = false ↔ c ∉ l := by
  rw [← Bool.not_eq_true, not_iff_not]
  exact contains_iff_mem

/-! ## Parser-stage lemmas for the URL round trip -/

/-- `takeWhile`/`dropWhile` over an append whose first part is all-true and
whose second part is empty or starts false. -/
theorem takeWhile_append_stop {p : Char → Bool} {a b : List Char}
    (ha : ∀ c ∈ a, p c = true)
    (hb : b = [] ∨ ∃ x xs, b = x :: xs ∧ p x = false) :
    (a ++ b).takeWhile p = a ∧ (a ++ b).dropWhile p = b := by
  constructor
  · rw [takeWhile_append_of_all b ha]
    rcases hb with rfl | ⟨x, xs, rfl, hx⟩
    · simp
    · rw [List.takeWhile_cons, if_neg (by simp [hx])]
      simp
  · rw [dropWhile_append_of_all b ha]
    rcases hb with rfl | ⟨x, xs, rfl, hx⟩
    · simp
    · rw [List.dropWhile_cons, if_neg (by simp [hx])]

/-- `takeWhile`/`dropWhile` over an append when the scan stops inside the
first part. -/
theorem takeWhile_append_of_stop {p : Char → Bool} :
    ∀ {a : List Char} (b : List Char), (∃ x ∈ a, p x = false) →
      (a ++ b).takeWhile p = a.takeWhile p ∧
      (a ++ b).dropWhile p = a.dropWhile p ++ b := by
  intro a
  induction a with
  | nil =>
    intro b h
    rcases h with ⟨x, hx, _⟩
    simp at hx
  | cons y t ih =>
    intro b h
    by_cases hy : p y = true
    · have ht : ∃ x ∈ t, p x = false := by
        rcases h with ⟨x, hx, hpx⟩
        rcases List.mem_cons.mp hx with rfl | hx
        · rw [hy] at hpx
          simp at hpx
        · exact ⟨x, hx, hpx⟩
      have := ih b ht
      constructor
      · simp only [List.cons_append, List.takeWhile_cons, hy, if_pos]
        rw [this.1]
      · simp only [List.cons_append, List.dropWhile_cons, hy, if_pos]
        rw [this.2]
    · have hy' : p y = false := Bool.eq_false_iff.mpr hy
      constructor
      · simp only [List.cons_append, List.takeWhile_cons, hy', Bool.false_eq_true,
          if_false]
      · simp only [List.cons_append, List.dropWhile_cons, hy', Bool.false_eq_true,
          if_false]

/-- Equation lemma: `splitScheme` when a colon and a candidate scheme are
found. -/
theorem splitScheme_eq_cons (l : List Char) (y x : Char) (rest xs : List Char)
    (hd : l.dropWhile (fun c => c != ':') = y :: rest)
    (ht : l.takeWhile (fun c => c != ':') = x :: xs) :
    splitScheme l =
      if isAsciiAlpha x && (x :: xs).all isSchemeChar then
        ((x :: xs).map pyLowerChar, rest)
      else ([], l) := by
  unfold splitScheme
  rw [hd, ht]

/-- Equation lemma: `splitScheme` without any colon. -/
theorem splitScheme_eq_nil_drop (l : List Char)
    (hd : l.dropWhile (fun c => c != ':') = []) : splitScheme l = ([], l) := by
  unfold splitScheme
  rw [hd]

/-- Equation lemma: `splitScheme` with the colon in first position. -/
theorem splitScheme_eq_nil_take (l : List Char)
    (ht : l.takeWhile (fun c => c != ':') = []) : splitScheme l = ([], l) := by
  unfold splitScheme
  rw [ht]
  cases l.dropWhile (fun c => c != ':') <;> rfl

/-- `splitScheme` on a colon-free list is the identity. -/
theorem splitScheme_no_colon {p : List Char}
    (h : ∀ c ∈ p, (c != ':') = true) : splitScheme p = ([], p) :=
  splitScheme_eq_nil_drop p
    (List.dropWhile_eq_nil_iff.mpr (by intro x hx; exact h x hx))

/-- `splitScheme` is the identity when the candidate scheme fails the
character tests. -/
theorem splitScheme_guard_fails {p : List Char}
    (h : ∀ x xs, p.takeWhile (fun c => c != ':') = x :: xs →
      (isAsciiAlpha x && (x :: xs).all isSchemeChar) = false) :
    splitScheme p = ([], p) := by
  cases hd : p.dropWhile (fun c => c != ':') with
  | nil => exact splitScheme_eq_nil_drop p hd
  | cons y rest =>
    cases ht : p.takeWhile (fun c => c != ':') with
    | nil => exact splitScheme_eq_nil_take p ht
    | cons x xs =>
      rw [splitScheme_eq_cons p y x rest xs hd ht,
        if_neg (by rw [h x xs ht]; simp)]

/-- `splitScheme` of a valid scheme followed by `:`. -/
theorem splitScheme_cons_colon {c : Char} {cs m : List Char}
    (hguard : (isAsciiAlpha c && (c :: cs).all isSchemeChar) = true) :
    splitScheme ((c :: cs) ++ ':' :: m) = ((c :: cs).map pyLowerChar, m) := by
  have hcol : ∀ x ∈ c :: cs, (x != ':') = true := by
    intro x hx
    have hsc : isSchemeChar x = true :=
      (List.all_eq_true.mp ((Bool.and_eq_true _ _).mp hguard).2) x hx
    exact (isSchemeChar_ne hsc).1
  have hsplit := takeWhile_append_stop (p := fun x => x != ':')
    (a := c :: cs) (b := ':' :: m) hcol
    (Or.inr ⟨':', m, rfl, by simp⟩)
  rw [splitScheme_eq_cons _ ':' c m cs hsplit.2 hsplit.1, if_pos hguard]

/-- When no scheme is found, the remainder is the whole input. -/
theorem splitScheme_fst_nil {l : List Char} (h : (splitScheme l).1 = []) :
    (splitScheme l).2 = l := by
  cases hd : l.dropWhile (fun c => c != ':') with
  | nil => rw [splitScheme_eq_nil_drop l hd]
  | cons y rest =>
    cases ht : l.takeWhile (fun c => c != ':') with
    | nil => rw [splitScheme_eq_nil_take l ht]
    | cons x xs =>
      rw [splitScheme_eq_cons l y x rest xs hd ht] at h ⊢
      by_cases hg : (isAsciiAlpha x && (x :: xs).all isSchemeChar) = true
      · rw [if_pos hg] at h
        simp at h
      · rw [if_neg hg]

/-- The scheme produced by `splitScheme` is empty or a well-formed,
already-lower-case scheme. -/
theorem splitScheme_fst_spec (l : List Char) :
    (splitScheme l).1 = [] ∨
    ((∀ c ∈ (splitScheme l).1, isSchemeChar c = true) ∧
     (∃ x xs, (splitScheme l).1 = x :: xs ∧ isAsciiAlpha x = true) ∧
     (splitScheme l).1.map pyLowerChar = (splitScheme l).1) := by
  cases hd : l.dropWhile (fun c => c != ':') with
  | nil => exact Or.inl (by rw [splitScheme_eq_nil_drop l hd])
  | cons y rest =>
    cases ht : l.takeWhile (fun c => c != ':') with
    | nil => exact Or.inl (by rw [splitScheme_eq_nil_take l ht])
    | cons x xs =>
      rw [splitScheme_eq_cons l y x rest xs hd ht]
      by_cases hg : (isAsciiAlpha x && (x :: xs).all isSchemeChar) = true
      · rw [if_pos hg]
        refine Or.inr ⟨?_, ?_, ?_⟩
        · intro c hc
          simp only [List.mem_map] at hc
          rcases hc with ⟨z, hz, rfl⟩
          have hsc : isSchemeChar z = true :=
            (List.all_eq_true.mp ((Bool.and_eq_true _ _).mp hg).2) z hz
          exact isSchemeChar_pyLowerChar hsc
        · refine ⟨pyLowerChar x, xs.map pyLowerChar, by simp, ?_⟩
          exact isAsciiAlpha_pyLowerChar ((Bool.and_eq_true _ _).mp hg).1
        · simp only [List.map_map]
          exact List.map_congr_left (fun z _ => pyLowerChar_idem z)
      · rw [if_neg hg]
        exact Or.inl rfl

/-- The post-scheme remainder is made of input characters. -/
theorem splitScheme_snd_mem {l : List Char} {c : Char}
    (h : c ∈ (splitScheme l).2) : c ∈ l := by
  cases hd : l.dropWhile (fun x => x != ':') with
  | nil =>
    rw [splitScheme_eq_nil_drop l hd] at h
    exact h
  | cons y rest =>
    cases ht : l.takeWhile (fun x => x != ':') with
    | nil =>
      rw [splitScheme_eq_nil_take l ht] at h
      exact h
    | cons x xs =>
      rw [splitScheme_eq_cons l y x rest xs hd ht] at h
      by_cases hg : (isAsciiAlpha x && (x :: xs).all isSchemeChar) = true
      · rw [if_pos hg] at h
        simp only [List.map_cons] at h
        have hmem : c ∈ y :: rest := List.mem_cons_of_mem _ h
        rw [← hd] at hmem
        exact mem_of_mem_dropWhile hmem
      · rw [if_neg hg] at h
        exact h

/-- A `splitScheme` fixpoint transfers to any of its list prefixes. -/
theorem splitScheme_self_of_append {p t : List Char}
    (h : splitScheme (p ++ t) = ([], p ++ t)) : splitScheme p = ([], p) := by
  by_cases hcol : ∃ x ∈ p, (x != ':') = false
  · have hsplit := takeWhile_append_of_stop (p := fun c => c != ':') t hcol
    apply splitScheme_guard_fails
    intro y ys hty
    by_contra hg
    have hg' : (isAsciiAlpha y && (y :: ys).all isSchemeChar) = true :=
      Bool.of_not_eq_false (by intro hfalse; exact hg hfalse)
    have hdp : ∃ z zs, p.dropWhile (fun c => c != ':') = z :: zs := by
      cases hdd : p.dropWhile (fun c => c != ':') with
      | nil =>
        rcases hcol with ⟨x, hx, hpx⟩
        have hall := List.dropWhile_eq_nil_iff.mp hdd
        have := hall x hx
        rw [hpx] at this
        simp at this
      | cons z zs => exact ⟨z, zs, rfl⟩
    rcases hdp with ⟨z, zs, hdp⟩
    have htfull : (p ++ t).takeWhile (fun c => c != ':') = y :: ys := by
      rw [hsplit.1, hty]
    have hdfull : (p ++ t).dropWhile (fun c => c != ':') = z :: (zs ++ t) := by
      rw [hsplit.2, hdp]
      simp
    rw [splitScheme_eq_cons (p ++ t) z y (zs ++ t) ys hdfull htfull,
      if_pos hg'] at h
    simp only [Prod.mk.injEq] at h
    exact absurd h.1 (by simp)
  · apply splitScheme_no_colon
    intro c hc
    by_contra hne
    exact hcol ⟨c, hc, Bool.eq_false_iff.mpr hne⟩

/-- `splitHash` when no `#` occurs. -/
theorem splitHash_no_hash {l : List Char} (h : l.contains '#' = false) :
    splitHash l = (l, []) := by
  unfold splitHash
  rw [if_neg (by rw [h]; simp)]

/-- `splitQmark` when no `?` occurs. -/
theorem splitQmark_no_qmark {l : List Char} (h : l.contains '?' = false) :
    splitQmark l = (l, []) := by
  unfold splitQmark
  rw [if_neg (by rw [h]; simp)]

/-- The pre-fragment part of `splitHash`: a `#`-free prefix. -/
theorem splitHash_fst (l : List Char) :
    (∃ t, (splitHash l).1 ++ t = l) ∧ (splitHash l).1.contains '#' = false := by
  unfold splitHash
  by_cases h : l.contains '#' = true
  · rw [if_pos h]
    refine ⟨⟨'#' :: afterFirst '#' l,
      beforeFirst_append_afterFirst (contains_iff_mem.mp h)⟩, ?_⟩
    rw [contains_eq_false_iff]
    intro hc
    exact not_mem_beforeFirst '#' hc rfl
  · rw [if_neg h]
    exact ⟨⟨[], List.append_nil l⟩, Bool.eq_false_iff.mpr h⟩

/-- The pre-query part of `splitQmark`: a `?`-free prefix. -/
theorem splitQmark_fst (l : List Char) :
    (∃ t, (splitQmark l).1 ++ t = l) ∧
    (splitQmark l).1.contains '?' = false := by
  unfold splitQmark
  by_cases h : l.contains '?' = true
  · rw [if_pos h]
    refine ⟨⟨'?' :: afterFirst '?' l,
      beforeFirst_append_afterFirst (contains_iff_mem.mp h)⟩, ?_⟩
    rw [contains_eq_false_iff]
    intro hc
    exact not_mem_beforeFirst '?' hc rfl
  · rw [if_neg h]
    exact ⟨⟨[], List.append_nil l⟩, Bool.eq_false_iff.mpr h⟩

/-- Non-containment transfers to any leading part of an append. -/
theorem contains_false_of_append {a t l : List Char} {c : Char}
    (he : a ++ t = l) (h : l.contains c = false) : a.contains c = false := by
  rw [contains_eq_false_iff] at h ⊢
  intro hc
  exact h (he ▸ List.mem_append_left t hc)

/-- Equation lemma: `splitparams`, slash present and `;` after it. -/
theorem splitparams_eq_case1 {l : List Char} (h1 : l.contains '/' = true)
    (h2 : (afterLast '/' l).contains ';' = true) :
    splitparams l = (upToLast '/' l ++ beforeFirst ';' (afterLast '/' l),
      afterFirst ';' (afterLast '/' l)) := by
  unfold splitparams
  rw [if_pos h1, if_pos h2]

/-- Equation lemma: `splitparams`, slash present, no `;` after it. -/
theorem splitparams_eq_case2 {l : List Char} (h1 : l.contains '/' = true)
    (h2 : (afterLast '/' l).contains ';' = false) :
    splitparams l = (l, []) := by
  unfold splitparams
  rw [if_pos h1, if_neg (by rw [h2]; simp)]

/-- Equation lemma: `splitparams`, no slash, `;` present. -/
theorem splitparams_eq_case3 {l : List Char} (h1 : l.contains '/' = false)
    (h2 : l.contains ';' = true) :
    splitparams l = (beforeFirst ';' l, afterFirst ';' l) := by
  unfold splitparams
  rw [if_neg (by rw [h1]; simp), if_pos h2]

/-- Equation lemma: `splitparams`, no slash, no `;`. -/
theorem splitparams_eq_case4 {l : List Char} (h1 : l.contains '/' = false)
    (h2 : l.contains ';' = false) :
    splitparams l = (l, []) := by
  unfold splitparams
  rw [if_neg (by rw [h1]; simp), if_neg (by rw [h2]; simp)]

/-- The path part of `splitparams` is a prefix of its input. -/
theorem splitparams_fst_append (l : List Char) :
    ∃ t, (splitparams l).1 ++ t = l := by
  by_cases h1 : l.contains '/' = true
  · by_cases h2 : (afterLast '/' l).contains ';' = true
    · rw [splitparams_eq_case1 h1 h2]
      refine ⟨';' :: afterFirst ';' (afterLast '/' l), ?_⟩
      rw [List.append_assoc,
        beforeFirst_append_afterFirst (contains_iff_mem.mp h2)]
      exact upToLast_append_afterLast '/' l
    · rw [splitparams_eq_case2 h1 (Bool.eq_false_iff.mpr h2)]
      exact ⟨[], List.append_nil l⟩
  · have h1' := Bool.eq_false_iff.mpr h1
    by_cases h2 : l.contains ';' = true
    · rw [splitparams_eq_case3 h1' h2]
      exact ⟨';' :: afterFirst ';' l,
        beforeFirst_append_afterFirst (contains_iff_mem.mp h2)⟩
    · rw [splitparams_eq_case4 h1' (Bool.eq_false_iff.mpr h2)]
      exact ⟨[], List.append_nil l⟩

/-- `afterLast` of an append whose left part ends in the separator and
whose right part avoids it. -/
theorem afterLast_append_of_getLast {c : Char} {a b : List Char}
    (ha : a.getLast? = some c) (hb : ∀ x ∈ b, (x != c) = true) :
    afterLast c (a ++ b) = b := by
  unfold afterLast
  rw [List.reverse_append]
  have hrev : ∀ x ∈ b.reverse, (x != c) = true := by
    intro x hx
    exact hb x (List.mem_reverse.mp hx)
  rw [takeWhile_append_of_all _ hrev]
  have hhead : a.reverse.head? = some c := by
    rw [List.head?_reverse]
    exact ha
  cases har : a.reverse with
  | nil =>
    rw [har] at hhead
    simp at hhead
  | cons y t =>
    rw [har] at hhead
    simp only [List.head?_cons, Option.some.injEq] at hhead
    subst hhead
    rw [List.takeWhile_cons, if_neg (by simp)]
    simp

/-- Re-splitting the path part of `splitparams` yields no params. -/
theorem splitparams_fst_idem (l : List Char) :
    splitparams (splitparams l).1 = ((splitparams l).1, []) := by
  by_cases h1 : l.contains '/' = true
  · by_cases h2 : (afterLast '/' l).contains ';' = true
    · rw [splitparams_eq_case1 h1 h2]
      have hU : (upToLast '/' l).getLast? = some '/' :=
        getLast?_upToLast (contains_iff_mem.mp h1)
      have hBnoslash :
          ∀ x ∈ beforeFirst ';' (afterLast '/' l), (x != '/') = true := by
        intro x hx
        exact bne_iff_ne.mpr (not_mem_afterLast x (mem_of_mem_takeWhile hx))
      have hafter := afterLast_append_of_getLast hU hBnoslash
      have hc1 : (upToLast '/' l ++
          beforeFirst ';' (afterLast '/' l)).contains '/' = true := by
        rw [contains_iff_mem]
        exact List.mem_append_left _
          (List.mem_of_mem_getLast? (by rw [hU]; rfl))
      have hc2 : (afterLast '/' (upToLast '/' l ++
          beforeFirst ';' (afterLast '/' l))).contains ';' = false := by
        rw [hafter, contains_eq_false_iff]
        intro hc
        exact not_mem_beforeFirst ';' hc rfl
      exact splitparams_eq_case2 hc1 hc2
    · have h2' := Bool.eq_false_iff.mpr h2
      rw [splitparams_eq_case2 h1 h2']
      exact splitparams_eq_case2 h1 h2'
  · have h1' := Bool.eq_false_iff.mpr h1
    by_cases h2 : l.contains ';' = true
    · rw [splitparams_eq_case3 h1' h2]
      have hc1 : (beforeFirst ';' l).contains '/' = false := by
        rw [contains_eq_false_iff]
        intro hc
        exact h1 (contains_iff_mem.mpr (mem_of_mem_takeWhile hc))
      have hc2 : (beforeFirst ';' l).contains ';' = false := by
        rw [contains_eq_false_iff]
        intro hc
        exact not_mem_beforeFirst ';' hc rfl
      exact splitparams_eq_case4 hc1 hc2
    · have h2' := Bool.eq_false_iff.mpr h2
      rw [splitparams_eq_case4 h1' h2']
      exact splitparams_eq_case4 h1' h2'

/-- Equation lemma for `urlsplitRest` under a consistent netloc. -/
theorem urlsplitRest_ok {n u2 : List Char}
    (hbr : bracketsMismatched n = false) :
    urlsplitRest n u2 = .ok (n, (splitQmark (splitHash u2).1).1,
      (splitQmark (splitHash u2).1).2, (splitHash u2).2) := by
  unfold urlsplitRest
  rw [if_neg (by simp [hbr])]

/-- `cleanUrl` is the identity on a list that needs no cleaning. -/
theorem cleanUrl_eq_self {l : List Char}
    (hhead : l = [] ∨ ∃ x xs, l = x :: xs ∧ 32 < x.toNat)
    (hkeep : ∀ c ∈ l, (!(c = '\t' || c = '\r' || c = '\n')) = true) :
    cleanUrl l = l := by
  unfold cleanUrl
  rcases hhead with rfl | ⟨x, xs, rfl, hx⟩
  · rfl
  · rw [List.dropWhile_cons,
      if_neg (by simp only [decide_eq_true_eq]; omega)]
    exact List.filter_eq_self.mpr hkeep

/-- Characters surviving `cleanUrl` pass its keep-filter. -/
theorem mem_cleanUrl_keep {l : List Char} {c : Char} (h : c ∈ cleanUrl l) :
    (!(c = '\t' || c = '\r' || c = '\n')) = true := by
  unfold cleanUrl at h
  exact (List.mem_filter.mp h).2

/-- A non-empty `cleanUrl` result starts above the C0/space range. -/
theorem cleanUrl_head_gt32 {l : List Char} {x : Char} {xs : List Char}
    (h : cleanUrl l = x :: xs) : 32 < x.toNat := by
  unfold cleanUrl at h
  cases hd : l.dropWhile (fun c => c.toNat ≤ 32) with
  | nil =>
    rw [hd] at h
    simp at h
  | cons y t =>
    rw [hd] at h
    have hhd : (l.dropWhile (fun c => c.toNat ≤ 32)).head? = some y := by
      rw [hd]
      rfl
    have hy := head?_dropWhile_false hhd
    have hy32 : 32 < y.toNat := by
      simp only [decide_eq_false_iff_not, Nat.not_le] at hy
      exact hy
    have hfil : List.filter (fun c => !(c = '\t' || c = '\r' || c = '\n'))
        (y :: t) =
        y :: List.filter (fun c => !(c = '\t' || c = '\r' || c = '\n')) t := by
      rw [List.filter_cons, keepChar_of_gt32 hy32]
      rfl
    rw [hfil] at h
    injection h with h1 _
    rw [← h1]
    exact hy32

/-- Equation lemma for `urlsplitChars` on a successful body. -/
theorem urlsplitChars_eq {l n p q f : List Char}
    (h : urlsplitBody (splitScheme (cleanUrl l)).2 = .ok (n, p, q, f)) :
    urlsplitChars l = .ok ⟨(splitScheme (cleanUrl l)).1, n, p, q, f⟩ := by
  unfold urlsplitChars
  rw [h]

/-- Equation lemma for `urlparseChars` on a successful split. -/
theorem urlparseChars_eq_split {l : List Char} {r0 : SplitResult}
    (h : urlsplitChars l = .ok r0) :
    urlparseChars l =
      if usesParams.contains r0.scheme && r0.path.contains ';' then
        .ok ⟨r0.scheme, r0.netloc, (splitparams r0.path).1,
          (splitparams r0.path).2, r0.query, r0.fragment⟩
      else .ok ⟨r0.scheme, r0.netloc, r0.path, [], r0.query, r0.fragment⟩ := by
  unfold urlparseChars
  rw [h]

/-- An ASCII letter is above the C0/space range. -/
theorem isAsciiAlpha_gt32 {c : Char} (h : isAsciiAlpha c = true) :
    32 < c.toNat := by
  simp only [isAsciiAlpha, Bool.or_eq_true, Bool.and_eq_true,
    decide_eq_true_eq] at h
  omega

/-- `splitScheme` is the identity when the input starts with a non-letter. -/
theorem splitScheme_of_head {x : Char} (xs : List Char)
    (hx : isAsciiAlpha x = false) : splitScheme (x :: xs) = ([], x :: xs) := by
  apply splitScheme_guard_fails
  intro y ys hty
  rw [List.takeWhile_cons] at hty
  by_cases hcol : (x != ':') = true
  · rw [if_pos hcol] at hty
    injection hty with h1 _
    subst h1
    rw [hx]
    rfl
  · rw [if_neg hcol] at hty
    exact absurd hty (by simp)

/-- A list whose two-element take is `//` starts with `/`. -/
theorem head_of_take_two {path : List Char}
    (h : path.take 2 = ['/', '/']) : path.head? = some '/' := by
  cases path with
  | nil => simp at h
  | cons a t =>
    have : (a :: t).take 2 = a :: t.take 1 := rfl
    rw [this] at h
    injection h with h1 _
    rw [h1]
    rfl

/-- Reparsing the body of a rebuilt `//netloc+path` text. -/
theorem urlsplitBody_reparse {n path : List Char}
    (hnall : ∀ c ∈ n, notNetlocDelim c = true)
    (hbr : bracketsMismatched n = false)
    (hphash : path.contains '#' = false)
    (hpq : path.contains '?' = false)
    (hpstart : path = [] ∨ path.head? = some '/') :
    urlsplitBody ('/' :: '/' :: (n ++ path)) = .ok (n, path, [], []) := by
  have hstop : path = [] ∨ ∃ x xs, path = x :: xs ∧ notNetlocDelim x = false := by
    rcases hpstart with rfl | hh
    · exact Or.inl rfl
    · cases path with
      | nil => exact Or.inl rfl
      | cons a t =>
        simp only [List.head?_cons, Option.some.injEq] at hh
        subst hh
        exact Or.inr ⟨'/', t, rfl, by decide⟩
  have hsplit := takeWhile_append_stop (p := notNetlocDelim) hnall hstop
  unfold urlsplitBody
  rw [if_pos (show ('/' :: '/' :: (n ++ path)).take 2 = ['/', '/'] from rfl)]
  have hdrop : ('/' :: '/' :: (n ++ path)).drop 2 = n ++ path := rfl
  rw [hdrop, hsplit.1, hsplit.2, urlsplitRest_ok hbr,
    splitHash_no_hash hphash]
  have h1 : (path, ([] : List Char)).1 = path := rfl
  rw [h1, splitQmark_no_qmark hpq]

/-- Reparsing the body of a bare path (no netloc rebuilt). -/
theorem urlsplitBody_reparse_nohost {path : List Char}
    (hphash : path.contains '#' = false)
    (hpq : path.contains '?' = false)
    (htk : ¬ path.take 2 = ['/', '/']) :
    urlsplitBody path = .ok ([], path, [], []) := by
  unfold urlsplitBody
  rw [if_neg htk, urlsplitRest_ok (by decide), splitHash_no_hash hphash]
  have h1 : (path, ([] : List Char)).1 = path := rfl
  rw [h1, splitQmark_no_qmark hpq]

/-- The assembled redaction output with empty query and fragment. -/
theorem urlunsplit_shape (sch n path : List Char)
    (hpre : (n ≠ [] ∨ path.take 2 = ['/', '/']) →
      ¬(path ≠ [] ∧ path.head? ≠ some '/')) :
    urlunsplitChars sch n path [] [] =
      (if sch ≠ [] then
        sch ++ ':' ::
          (if n ≠ [] ∨ path.take 2 = ['/', '/'] then
            '/' :: '/' :: (n ++ path) else path)
      else
        (if n ≠ [] ∨ path.take 2 = ['/', '/'] then
          '/' :: '/' :: (n ++ path) else path)) := by
  simp only [urlunsplitChars]
  by_cases hreb : n ≠ [] ∨ path.take 2 = ['/', '/']
  · rw [if_pos hreb, if_pos hreb, if_neg (hpre hreb)]
    simp
  · rw [if_neg hreb, if_neg hreb]
    simp

/-- A netloc character is not a delimiter. -/
theorem notNetlocDelim_ne {c : Char} (h : notNetlocDelim c = true) :
    c ≠ '/' ∧ c ≠ '?' ∧ c ≠ '#' := by
  simp only [notNetlocDelim, Bool.not_eq_true', Bool.or_eq_false_iff,
    decide_eq_false_iff_not] at h
  exact ⟨h.1.1, h.1.2, h.2⟩

/-- A scheme-and-colon prefix introduces neither `?` nor `#` nor more. -/
theorem contains_false_scheme_colon {sch mid : List Char} {c0 : Char}
    (hs1 : ∀ c ∈ sch, isSchemeChar c = true)
    (hsc : isSchemeChar c0 = false) (hcol : c0 ≠ ':')
    (hmid : mid.contains c0 = false) :
    (sch ++ ':' :: mid).contains c0 = false := by
  rw [contains_eq_false_iff]
  intro hmem
  rcases List.mem_append.mp hmem with hc | hc
  · rw [hs1 c0 hc] at hsc
    simp at hsc
  · rcases List.mem_cons.mp hc with heq | hc
    · exact hcol heq
    · exact (contains_eq_false_iff.mp hmid) hc

/-- The rebuilt `//netloc+path` text contains neither `?` nor `#`. -/
theorem contains_false_mid {n path : List Char} {c0 : Char}
    (hslash : c0 ≠ '/')
    (hnall : ∀ c ∈ n, notNetlocDelim c = true)
    (hq : c0 = '?' ∨ c0 = '#')
    (hp : path.contains c0 = false) :
    ('/' :: '/' :: (n ++ path)).contains c0 = false := by
  rw [contains_eq_false_iff]
  intro hmem
  rcases List.mem_cons.mp hmem with heq | hmem
  · exact hslash heq
  rcases List.mem_cons.mp hmem with heq | hmem
  · exact hslash heq
  rcases List.mem_append.mp hmem with hc | hc
  · rcases hq with rfl | rfl
    · exact (notNetlocDelim_ne (hnall _ hc)).2.1 rfl
    · exact (notNetlocDelim_ne (hnall _ hc)).2.2 rfl
  · exact (contains_eq_false_iff.mp hp) hc

/-- Reparsing a scheme-prefixed reassembled URL. -/
theorem scheme_prefixed_reparse {sch mid n path : List Char}
    (hs1 : ∀ c ∈ sch, isSchemeChar c = true)
    (hsx : ∃ x xs, sch = x :: xs ∧ isAsciiAlpha x = true)
    (hsmap : sch.map pyLowerChar = sch)
    (hkeepmid : ∀ c ∈ mid, (!(c = '\t' || c = '\r' || c = '\n')) = true)
    (hbody : urlsplitBody mid = .ok (n, path, [], [])) :
    urlsplitChars (sch ++ ':' :: mid) = .ok ⟨sch, n, path, [], []⟩ := by
  obtain ⟨x, xs, rfl, hsalpha⟩ := hsx
  have hclean : cleanUrl ((x :: xs) ++ ':' :: mid) = (x :: xs) ++ ':' :: mid := by
    apply cleanUrl_eq_self
    · exact Or.inr ⟨x, xs ++ ':' :: mid, by simp, isAsciiAlpha_gt32 hsalpha⟩
    · intro c hc
      rcases List.mem_append.mp hc with hc | hc
      · exact keepChar_of_gt32 (isSchemeChar_gt32 (hs1 c hc))
      · rcases List.mem_cons.mp hc with rfl | hc
        · decide
        · exact hkeepmid c hc
  have hguard : (isAsciiAlpha x && (x :: xs).all isSchemeChar) = true := by
    rw [Bool.and_eq_true]
    exact ⟨hsalpha, List.all_eq_true.mpr (fun c hc => hs1 c hc)⟩
  have hsplitS := @splitScheme_cons_colon x xs mid hguard
  rw [hsmap] at hsplitS
  have hok : urlsplitBody
      (splitScheme (cleanUrl ((x :: xs) ++ ':' :: mid))).2 =
      .ok (n, path, [], []) := by
    rw [hclean, hsplitS]
    exact hbody
  have hfinal := urlsplitChars_eq hok
  rw [hclean, hsplitS] at hfinal
  exact hfinal

/-- Reparsing a reassembled URL without scheme. -/
theorem noscheme_reparse (mid n path : List Char)
    (hhead : mid = [] ∨ ∃ x xs, mid = x :: xs ∧ 32 < x.toNat)
    (hkeepmid : ∀ c ∈ mid, (!(c = '\t' || c = '\r' || c = '\n')) = true)
    (hss : splitScheme mid = ([], mid))
    (hbody : urlsplitBody mid = .ok (n, path, [], [])) :
    urlsplitChars mid = .ok ⟨[], n, path, [], []⟩ := by
  have hclean : cleanUrl mid = mid := cleanUrl_eq_self hhead hkeepmid
  have hok : urlsplitBody (splitScheme (cleanUrl mid)).2 =
      .ok (n, path, [], []) := by
    rw [hclean, hss]
    exact hbody
  have hfinal := urlsplitChars_eq hok
  rw [hclean, hss] at hfinal
  exact hfinal

/-- Reparsing the redaction output: the single-pass round trip at the
`urlsplit` level. -/
theorem unsplit_reparse (sch n path : List Char)
    (hsch : sch = [] ∨ ((∀ c ∈ sch, isSchemeChar c = true) ∧
      (∃ x xs, sch = x :: xs ∧ isAsciiAlpha x = true) ∧
      sch.map pyLowerChar = sch))
    (hnall : ∀ c ∈ n, notNetlocDelim c = true)
    (hbr : bracketsMismatched n = false)
    (hkeepn : ∀ c ∈ n, (!(c = '\t' || c = '\r' || c = '\n')) = true)
    (hkeepp : ∀ c ∈ path, (!(c = '\t' || c = '\r' || c = '\n')) = true)
    (hphash : path.contains '#' = false)
    (hpq : path.contains '?' = false)
    (hpnl : n ≠ [] → (path = [] ∨ path.head? = some '/'))
    (hsp : sch = [] → n = [] → ¬ path.take 2 = ['/', '/'] →
      (splitScheme path = ([], path) ∧
       (path = [] ∨ ∃ x xs, path = x :: xs ∧ 32 < x.toNat))) :
    urlsplitChars (urlunsplitChars sch n path [] []) =
      .ok ⟨sch, n, path, [], []⟩ ∧
    (urlunsplitChars sch n path [] []).contains '?' = false ∧
    (urlunsplitChars sch n path [] []).contains '#' = false := by
  have hpstart : (n ≠ [] ∨ path.take 2 = ['/', '/']) →
      (path = [] ∨ path.head? = some '/') := by
    intro hreb
    rcases hreb with hn | ht
    · exact hpnl hn
    · exact Or.inr (head_of_take_two ht)
  have hpre : (n ≠ [] ∨ path.take 2 = ['/', '/']) →
      ¬(path ≠ [] ∧ path.head? ≠ some '/') := by
    intro hreb hcontra
    rcases hpstart hreb with rfl | hh
    · exact hcontra.1 rfl
    · exact hcontra.2 hh
  rw [urlunsplit_shape sch n path hpre]
  rcases hsch with rfl | ⟨hs1, ⟨x, xs, rfl, hsalpha⟩, hsmap⟩
  · rw [if_neg (by simp)]
    by_cases hreb : n ≠ [] ∨ path.take 2 = ['/', '/']
    · rw [if_pos hreb]
      have hbody := urlsplitBody_reparse hnall hbr hphash hpq (hpstart hreb)
      have hkeepmid : ∀ c ∈ '/' :: '/' :: (n ++ path),
          (!(c = '\t' || c = '\r' || c = '\n')) = true := by
        intro c hc
        rcases List.mem_cons.mp hc with rfl | hc
        · decide
        rcases List.mem_cons.mp hc with rfl | hc
        · decide
        rcases List.mem_append.mp hc with hc | hc
        · exact hkeepn c hc
        · exact hkeepp c hc
      refine ⟨?_, ?_, ?_⟩
      · exact noscheme_reparse _ n path
          (Or.inr ⟨'/', '/' :: (n ++ path), rfl, by decide⟩)
          hkeepmid (splitScheme_of_head _ (by decide)) hbody
      · exact contains_false_mid (by decide) hnall (Or.inl rfl) hpq
      · exact contains_false_mid (by decide) hnall (Or.inr rfl) hphash
    · rw [if_neg hreb]
      push_neg at hreb
      obtain ⟨hn, htk⟩ := hreb
      obtain ⟨hsplitp, hheadp⟩ := hsp rfl hn htk
      subst hn
      exact ⟨noscheme_reparse path [] path hheadp hkeepp hsplitp
        (urlsplitBody_reparse_nohost hphash hpq htk), hpq, hphash⟩
  · rw [if_pos (by simp)]
    by_cases hreb : n ≠ [] ∨ path.take 2 = ['/', '/']
    · rw [if_pos hreb]
      have hbody := urlsplitBody_reparse hnall hbr hphash hpq (hpstart hreb)
      have hkeepmid : ∀ c ∈ '/' :: '/' :: (n ++ path),
          (!(c = '\t' || c = '\r' || c = '\n')) = true := by
        intro c hc
        rcases List.mem_cons.mp hc with rfl | hc
        · decide
        rcases List.mem_cons.mp hc with rfl | hc
        · decide
        rcases List.mem_append.mp hc with hc | hc
        · exact hkeepn c hc
        · exact hkeepp c hc
      refine ⟨?_, ?_, ?_⟩
      · exact scheme_prefixed_reparse hs1 ⟨x, xs, rfl, hsalpha⟩ hsmap
          hkeepmid hbody
      · exact contains_false_scheme_colon hs1 (by decide) (by decide)
          (contains_false_mid (by decide) hnall (Or.inl rfl) hpq)
      · exact contains_false_scheme_colon hs1 (by decide) (by decide)
          (contains_false_mid (by decide) hnall (Or.inr rfl) hphash)
    · rw [if_neg hreb]
      push_neg at hreb
      obtain ⟨hn, htk⟩ := hreb
      subst hn
      refine ⟨?_, ?_, ?_⟩
      · exact scheme_prefixed_reparse hs1 ⟨x, xs, rfl, hsalpha⟩ hsmap hkeepp
          (urlsplitBody_reparse_nohost hphash hpq htk)
      · exact contains_false_scheme_colon hs1 (by decide) (by decide) hpq
      · exact contains_false_scheme_colon hs1 (by decide) (by decide) hphash

/-- Prefix chaining. -/
theorem append_chain {a b c : List Char} (h1 : ∃ t, a ++ t = b)
    (h2 : ∃ t, b ++ t = c) : ∃ t, a ++ t = c := by
  rcases h1 with ⟨t1, h1⟩
  rcases h2 with ⟨t2, h2⟩
  exact ⟨t1 ++ t2, by rw [← List.append_assoc, h1, h2]⟩

/-- Membership transfers along a prefix. -/
theorem mem_of_append {a b : List Char} {c : Char} (h : ∃ t, a ++ t = b)
    (hc : c ∈ a) : c ∈ b := by
  rcases h with ⟨t, ht⟩
  rw [← ht]
  exact List.mem_append_left t hc

/-- Round trip at the `urlsplit` level: re-splitting the reassembled
scheme/netloc/path of a successful split recovers them, with empty query
and fragment, and the reassembled text shows no `?` or `#`. -/
theorem urlsplit_roundtrip {l : List Char} {r0 : SplitResult}
    (h : urlsplitChars l = .ok r0) {path : List Char}
    (hpp : ∃ t, path ++ t = r0.path) :
    urlsplitChars (urlunsplitChars r0.scheme r0.netloc path [] []) =
      .ok ⟨r0.scheme, r0.netloc, path, [], []⟩ ∧
    (urlunsplitChars r0.scheme r0.netloc path [] []).contains '?' = false ∧
    (urlunsplitChars r0.scheme r0.netloc path [] []).contains '#' = false := by
  cases hb : urlsplitBody (splitScheme (cleanUrl l)).2 with
  | error e =>
    unfold urlsplitChars at h
    rw [hb] at h
    simp at h
  | ok npqf =>
    obtain ⟨n, p0, q, f⟩ := npqf
    unfold urlsplitChars at h
    rw [hb] at h
    injection h with h
    subst h
    have hpp' : ∃ t, path ++ t = p0 := hpp
    have hsch := splitScheme_fst_spec (cleanUrl l)
    unfold urlsplitBody at hb
    by_cases hsl : (splitScheme (cleanUrl l)).2.take 2 = ['/', '/']
    · rw [if_pos hsl] at hb
      unfold urlsplitRest at hb
      by_cases hbrt : bracketsMismatched
          (((splitScheme (cleanUrl l)).2.drop 2).takeWhile notNetlocDelim) = true
      · rw [if_pos hbrt] at hb
        simp at hb
      · rw [if_neg hbrt] at hb
        injection hb with hb
        simp only [Prod.mk.injEq] at hb
        obtain ⟨hn, hp0, hq, hf⟩ := hb
        have hXpre := splitHash_fst
          (((splitScheme (cleanUrl l)).2.drop 2).dropWhile notNetlocDelim)
        have hQpre := splitQmark_fst ((splitHash
          (((splitScheme (cleanUrl l)).2.drop 2).dropWhile notNetlocDelim)).1)
        have hp0pre : ∃ t, p0 ++ t =
            ((splitScheme (cleanUrl l)).2.drop 2).dropWhile notNetlocDelim := by
          rw [← hp0]
          exact append_chain hQpre.1 hXpre.1
        have hp0hash : p0.contains '#' = false := by
          rw [← hp0]
          rcases hQpre.1 with ⟨t1, ht1⟩
          exact contains_false_of_append ht1 hXpre.2
        have hp0q : p0.contains '?' = false := by
          rw [← hp0]
          exact hQpre.2
        have hpathu2 : ∃ t, path ++ t =
            ((splitScheme (cleanUrl l)).2.drop 2).dropWhile notNetlocDelim :=
          append_chain hpp' hp0pre
        have hphash : path.contains '#' = false := by
          rcases hpp' with ⟨t1, ht1⟩
          exact contains_false_of_append ht1 hp0hash
        have hpq : path.contains '?' = false := by
          rcases hpp' with ⟨t1, ht1⟩
          exact contains_false_of_append ht1 hp0q
        have hpathstart : path = [] ∨ path.head? = some '/' := by
          cases path with
          | nil => exact Or.inl rfl
          | cons a t0 =>
            right
            rcases hpathu2 with ⟨t1, ht1⟩
            have hhd : ((((splitScheme (cleanUrl l)).2.drop 2).dropWhile
                notNetlocDelim)).head? = some a := by
              rw [← ht1]
              rfl
            have hnd := head?_dropWhile_false hhd
            have hin : (a = '/' ∨ a = '?') ∨ a = '#' := by
              simp only [notNetlocDelim] at hnd
              rw [Bool.not_eq_false'] at hnd
              simp only [Bool.or_eq_true, decide_eq_true_eq] at hnd
              exact hnd
            rcases hin with (rfl | rfl) | rfl
            · rfl
            · exfalso
              have hcontra := contains_iff_mem.mpr
                (List.mem_cons_self ('?' : Char) t0)
              rw [hpq] at hcontra
              exact Bool.false_ne_true hcontra
            · exfalso
              have hcontra := contains_iff_mem.mpr
                (List.mem_cons_self ('#' : Char) t0)
              rw [hphash] at hcontra
              exact Bool.false_ne_true hcontra
        have hnall : ∀ c ∈ n, notNetlocDelim c = true := by
          intro c hc
          rw [← hn] at hc
          exact @List.mem_takeWhile_imp _ _ _ _ hc
        have hbr : bracketsMismatched n = false := by
          rw [← hn]
          exact Bool.eq_false_iff.mpr hbrt
        have hkeepn : ∀ c ∈ n, (!(c = '\t' || c = '\r' || c = '\n')) = true := by
          intro c hc
          rw [← hn] at hc
          have h1 := mem_of_mem_takeWhile hc
          have h2 : c ∈ (splitScheme (cleanUrl l)).2 := List.drop_subset _ _ h1
          exact mem_cleanUrl_keep (splitScheme_snd_mem h2)
        have hkeepp : ∀ c ∈ path,
            (!(c = '\t' || c = '\r' || c = '\n')) = true := by
          intro c hc
          have h1 := mem_of_append hpathu2 hc
          have h2 := mem_of_mem_dropWhile h1
          have h3 : c ∈ (splitScheme (cleanUrl l)).2 := List.drop_subset _ _ h2
          exact mem_cleanUrl_keep (splitScheme_snd_mem h3)
        exact unsplit_reparse ((splitScheme (cleanUrl l)).1) n path hsch
          hnall hbr hkeepn hkeepp hphash hpq (fun _ => hpathstart)
          (fun _ _ htk => by
            rcases hpathstart with rfl | hh
            · exact ⟨rfl, Or.inl rfl⟩
            · cases path with
              | nil => exact ⟨rfl, Or.inl rfl⟩
              | cons a t0 =>
                simp only [List.head?_cons, Option.some.injEq] at hh
                subst hh
                exact ⟨splitScheme_of_head t0 (by decide),
                  Or.inr ⟨'/', t0, rfl, by decide⟩⟩)
    · rw [if_neg hsl] at hb
      unfold urlsplitRest at hb
      rw [if_neg (by decide)] at hb
      injection hb with hb
      simp only [Prod.mk.injEq] at hb
      obtain ⟨hn, hp0, hq, hf⟩ := hb
      have hXpre := splitHash_fst ((splitScheme (cleanUrl l)).2)
      have hQpre := splitQmark_fst
        ((splitHash ((splitScheme (cleanUrl l)).2)).1)
      have hp0pre : ∃ t, p0 ++ t = (splitScheme (cleanUrl l)).2 := by
        rw [← hp0]
        exact append_chain hQpre.1 hXpre.1
      have hp0hash : p0.contains '#' = false := by
        rw [← hp0]
        rcases hQpre.1 with ⟨t1, ht1⟩
        exact contains_false_of_append ht1 hXpre.2
      have hp0q : p0.contains '?' = false := by
        rw [← hp0]
        exact hQpre.2
      have hpathu1 : ∃ t, path ++ t = (splitScheme (cleanUrl l)).2 :=
        append_chain hpp' hp0pre
      have hphash : path.contains '#' = false := by
        rcases hpp' with ⟨t1, ht1⟩
        exact contains_false_of_append ht1 hp0hash
      have hpq : path.contains '?' = false := by
        rcases hpp' with ⟨t1, ht1⟩
        exact contains_false_of_append ht1 hp0q
      have hkeepp : ∀ c ∈ path,
          (!(c = '\t' || c = '\r' || c = '\n')) = true := by
        intro c hc
        have h1 := mem_of_append hpathu1 hc
        exact mem_cleanUrl_keep (splitScheme_snd_mem h1)
      subst hn
      exact unsplit_reparse ((splitScheme (cleanUrl l)).1) [] path hsch
        (by intro c hc; simp at hc)
        (by decide)
        (by intro c hc; simp at hc)
        hkeepp hphash hpq
        (fun hctr => absurd rfl hctr)
        (fun hschnil _ htk => by
          have hsnd := splitScheme_fst_nil hschnil
          have hpathl : ∃ t, path ++ t = cleanUrl l := by
            rw [← hsnd]
            exact hpathu1
          have hfix : splitScheme (cleanUrl l) = ([], cleanUrl l) :=
            Prod.ext hschnil hsnd
          rcases hpathl with ⟨t1, ht1⟩
          constructor
          · exact splitScheme_self_of_append (t := t1) (by rw [ht1]; exact hfix)
          · cases path with
            | nil => exact Or.inl rfl
            | cons a t0 =>
              refine Or.inr ⟨a, t0, rfl, ?_⟩
              have hcl : cleanUrl l = a :: (t0 ++ t1) := by
                rw [← ht1]
                rfl
              exact cleanUrl_head_gt32 hcl)

/-- Component-level equation lemma for `urlparseChars`. -/
theorem urlparseChars_eq_split' {l sch n p q f : List Char}
    (h : urlsplitChars l = .ok ⟨sch, n, p, q, f⟩) :
    urlparseChars l =
      if usesParams.contains sch && p.contains ';' then
        .ok ⟨sch, n, (splitparams p).1, (splitparams p).2, q, f⟩
      else .ok ⟨sch, n, p, [], q, f⟩ := by
  unfold urlparseChars
  rw [h]

/-! ## Theorems: the claims -/

/-- C10 helper: popping a key removes every binding of it. -/
theorem dictLookup_dictPop (d : PyDict) (k : String) :
    dictLookup (dictPop d k) k = none := by
  unfold dictLookup
  rw [Option.map_eq_none', List.find?_eq_none]
  intro x hx
  have h2 : x.1 ≠ k := of_decide_eq_true (List.mem_filter.mp hx).2
  simp [h2]

/-- C2: an address is public exactly when it is global-unicast and none of
the six special categories applies; and the conjunction is strictly
stronger than `is_global` alone (e.g. `224.0.0.1` is global-flagged but
multicast, hence not public). -/
theorem is_public_ip_iff_global_and_no_special :
    (∀ a : IPAddr, _is_public_ip a = true ↔
      (a.is_global = true ∧ a.is_private = false ∧ a.is_loopback = false ∧
       a.is_link_local = false ∧ a.is_reserved = false ∧
       a.is_multicast = false ∧ a.is_unspecified = false)) ∧
    (∃ a : IPAddr, a.is_global = true ∧ _is_public_ip a = false) := by
  constructor
  · intro a
    unfold _is_public_ip
    constructor
    · intro h
      simp only [Bool.and_eq_true, Bool.not_eq_true', Bool.or_eq_false_iff] at h
      tauto
    · intro h
      simp only [Bool.and_eq_true, Bool.not_eq_true', Bool.or_eq_false_iff]
      tauto
  · exact ⟨.v4 3758096385, by decide, by decide⟩

/-- C2 instantiation: `8.8.8.8` is classified public. -/
theorem is_public_ip_iff_witness : _is_public_ip (IPAddr.v4 134744072) = true :=
  (is_public_ip_iff_global_and_no_special.1 (IPAddr.v4 134744072)).mpr (by decide)

/-- C10: the dict returned by `load_config` never carries `smtp_password`,
whatever the environment, the config file state and the keychain outcome. -/
theorem load_config_no_smtp_password (env : EnvState) (file : ConfigFile)
    (keyringOk : Bool) :
    dictLookup (load_config env file keyringOk) "smtp_password" = none := by
  simp only [load_config]
  exact dictLookup_dictPop _ _

/-- C9 helper: stripping only removes characters. -/
theorem pyStrip_length_le (l : List Char) : (pyStrip l).length ≤ l.length := by
  unfold pyStrip
  calc ((l.dropWhile pyIsSpace).reverse.dropWhile pyIsSpace).reverse.length
      = ((l.dropWhile pyIsSpace).reverse.dropWhile pyIsSpace).length :=
        List.length_reverse _
    _ ≤ (l.dropWhile pyIsSpace).reverse.length :=
        (List.dropWhile_sublist _).length_le
    _ = (l.dropWhile pyIsSpace).length := List.length_reverse _
    _ ≤ l.length := (List.dropWhile_sublist _).length_le

/-- C9 helper: stripping introduces no character. -/
theorem mem_of_mem_pyStrip {l : List Char} {c : Char} (h : c ∈ pyStrip l) :
    c ∈ l := by
  unfold pyStrip at h
  rw [List.mem_reverse] at h
  have h2 := mem_of_mem_dropWhile h
  rw [List.mem_reverse] at h2
  exact mem_of_mem_dropWhile h2

/-- C9 helper: a stripped string does not start with whitespace. -/
theorem pyStrip_head?_not_space {l : List Char} {c : Char}
    (h : (pyStrip l).head? = some c) : pyIsSpace c = false := by
  unfold pyStrip at h
  rw [List.head?_reverse] at h
  have hne : (l.dropWhile pyIsSpace).reverse.dropWhile pyIsSpace ≠ [] := by
    intro hnil
    rw [hnil] at h
    simp at h
  have h2 : ((l.dropWhile pyIsSpace).reverse).getLast? = some c := by
    have hsplit := List.takeWhile_append_dropWhile pyIsSpace
      (l.dropWhile pyIsSpace).reverse
    rw [← hsplit, List.getLast?_append_of_ne_nil _ hne]
    exact h
  rw [getLast?_reverse'] at h2
  exact head?_dropWhile_false h2

/-- C9 helper: a stripped string does not end with whitespace. -/
theorem pyStrip_getLast?_not_space {l : List Char} {c : Char}
    (h : (pyStrip l).getLast? = some c) : pyIsSpace c = false := by
  unfold pyStrip at h
  rw [getLast?_reverse'] at h
  exact head?_dropWhile_false h

/-- C9: the sanitized filename is at most 100 characters, free of the
forbidden characters and of apostrophes, and stripped of leading and
trailing whitespace. -/
theorem sanitize_filename_spec (title : List Char) :
    (sanitize_filename title).length ≤ 100 ∧
    (∀ c ∈ sanitize_filename title,
      filenameBadChar c = false ∧ c ≠ Char.ofNat 39) ∧
    (∀ c, (sanitize_filename title).head? = some c → pyIsSpace c = false) ∧
    (∀ c, (sanitize_filename title).getLast? = some c → pyIsSpace c = false) := by
  refine ⟨?_, ?_, ?_, ?_⟩
  · simp only [sanitize_filename]
    exact le_trans (pyStrip_length_le _) (List.length_take_le _ _)
  · intro c hc
    simp only [sanitize_filename] at hc
    have h1 := mem_of_mem_pyStrip hc
    have h2 := List.mem_of_mem_take h1
    have h3 := List.mem_filter.mp h2
    have h4 := List.mem_filter.mp h3.1
    have h5 := List.mem_filter.mp h4.1
    refine ⟨?_, of_decide_eq_true h3.2⟩
    have h6 := h5.2
    rw [Bool.not_eq_true'] at h6
    exact h6
  · intro c hc
    simp only [sanitize_filename] at hc
    exact pyStrip_head?_not_space hc
  · intro c hc
    simp only [sanitize_filename] at hc
    exact pyStrip_getLast?_not_space hc

/-- The per-address loop accepts exactly the lists whose members all parse
to public addresses. -/
theorem checkResolved_eq_none_iff : ∀ addrs : List (List Char),
    (checkResolved addrs = none ↔
      ∀ s ∈ addrs, ∃ a, ip_address s = some a ∧ _is_public_ip a = true) := by
  intro addrs
  induction addrs with
  | nil => simp [checkResolved]
  | cons s rest ih =>
    cases hip : ip_address s with
    | none =>
      have hstep : checkResolved (s :: rest) =
          some ("Unparseable resolved IP: " ++ s.asString) := by
        unfold checkResolved
        rw [hip]
      rw [hstep]
      constructor
      · intro h
        exact absurd h (by simp)
      · intro h
        rcases h s (List.mem_cons_self _ _) with ⟨a, ha, _⟩
        rw [hip] at ha
        exact absurd ha (by simp)
    | some a =>
      have hstep : checkResolved (s :: rest) =
          if (!_is_public_ip a) = true then
            some "URL resolves to a non-public IP address"
          else checkResolved rest := by
        simp only [checkResolved, hip]
      rw [hstep]
      by_cases hpub : _is_public_ip a = true
      · rw [if_neg (by simp [hpub])]
        constructor
        · intro h x hx
          rcases List.mem_cons.mp hx with rfl | hx
          · exact ⟨a, hip, hpub⟩
          · exact ih.mp h x hx
        · intro h
          exact ih.mpr (fun x hx => h x (List.mem_cons_of_mem _ hx))
      · rw [if_pos (by simp [Bool.eq_false_iff.mpr hpub])]
        constructor
        · intro h
          exact absurd h (by simp)
        · intro h
          rcases h s (List.mem_cons_self _ _) with ⟨b, hb, hpb⟩
          rw [hip] at hb
          injection hb with hb
          subst hb
          exact absurd hpb hpub

/-- C1: for a DNS-name hostname whose resolution succeeds with a non-empty
list, the guard allows exactly when every resolved address parses to a
public address (one bad address rejects the lot), and the guard always
returns a decision (never an exception) in this configuration. -/
theorem check_url_ssrf_dns_all_public_iff (resolve : Resolver)
    (url : List Char) (r : ParseResult) (h : List Char)
    (addrs : List (List Char))
    (hparse : urlparseChars url = .ok r)
    (hhost : netlocHostname r.netloc = some h)
    (hlit : ip_address h = none)
    (hres : resolve h = .ok addrs)
    (hne : addrs ≠ []) :
    (check_url_ssrf resolve url = .ok none ↔
      ∀ s ∈ addrs, ∃ a, ip_address s = some a ∧ _is_public_ip a = true) ∧
    check_url_ssrf resolve url = .ok (checkResolved addrs) := by
  have hdec : check_url_ssrf resolve url = .ok (checkResolved addrs) := by
    simp only [check_url_ssrf, ssrfDecision, resolveAndCheck, hparse, hhost,
      hlit, hres]
    simp [hne]
  refine ⟨?_, hdec⟩
  rw [hdec]
  constructor
  · intro hok
    injection hok with hok
    exact (checkResolved_eq_none_iff addrs).mp hok
  · intro hall
    rw [(checkResolved_eq_none_iff addrs).mpr hall]

/-- C1 witness: a DNS name resolving to one public address is allowed. -/
theorem check_url_ssrf_dns_all_public_iff_witness :
    check_url_ssrf
      (fun h => if h = "example.com".data then .ok ["93.184.216.34".data]
        else .error .gaierror)
      "http://example.com/a?b#c".data = .ok none := by
  refine (check_url_ssrf_dns_all_public_iff
    (fun h => if h = "example.com".data then .ok ["93.184.216.34".data]
      else .error .gaierror)
    "http://example.com/a?b#c".data
    ⟨"http".data, "example.com".data, "/a".data, [], "b".data, "c".data⟩
    "example.com".data ["93.184.216.34".data]
    rfl rfl rfl rfl (by decide)).1.mpr ?_
  intro s hs
  rcases List.mem_singleton.mp hs with rfl
  exact ⟨.v4 1572395042, by decide, by decide⟩

/-- C3: a URL whose hostname is a literal address in any of the six
special categories is rejected as a non-public literal, for every
resolver (no resolution outcome can change the verdict). -/
theorem check_url_ssrf_nonpublic_literal (url : List Char) (r : ParseResult)
    (h : List Char) (a : IPAddr)
    (hparse : urlparseChars url = .ok r)
    (hhost : netlocHostname r.netloc = some h)
    (hlit : ip_address h = some a)
    (hbad : (a.is_private || a.is_loopback || a.is_link_local ||
      a.is_reserved || a.is_multicast || a.is_unspecified) = true) :
    ∀ resolve : Resolver,
      check_url_ssrf resolve url =
        .ok (some "URL points to a non-public IP address") := by
  intro resolve
  have hpub : _is_public_ip a = false := by
    unfold _is_public_ip
    rw [hbad]
    simp
  simp only [check_url_ssrf, ssrfDecision, hparse, hhost, hlit, hpub]
  simp

/-- C3 witness: `http://127.0.0.1/` is rejected even under a resolver that
would report a public address. -/
theorem check_url_ssrf_nonpublic_literal_witness :
    check_url_ssrf (fun _ => .ok ["8.8.8.8".data]) "http://127.0.0.1/".data =
      .ok (some "URL points to a non-public IP address") :=
  check_url_ssrf_nonpublic_literal "http://127.0.0.1/".data
    ⟨"http".data, "127.0.0.1".data, "/".data, [], [], []⟩
    "127.0.0.1".data (.v4 2130706433)
    rfl rfl rfl (by decide)
    (fun _ => .ok ["8.8.8.8".data])

/-- C5: for a DNS-name hostname, a resolver `gaierror` or an empty result
list each yield the corresponding rejection (fail-closed), never an allow;
and even the uncaught `UnicodeError` failure propagates as an exception,
so no resolution failure of any kind returns the allow verdict. -/
theorem check_url_ssrf_dns_failure_closed (url : List Char) (r : ParseResult)
    (h : List Char) (resolve : Resolver)
    (hparse : urlparseChars url = .ok r)
    (hhost : netlocHostname r.netloc = some h)
    (hlit : ip_address h = none) :
    (resolve h = .error .gaierror →
      check_url_ssrf resolve url =
        .ok (some "DNS resolution failed for URL hostname")) ∧
    (resolve h = .ok [] →
      check_url_ssrf resolve url =
        .ok (some "DNS resolution returned no results")) ∧
    (∀ m : String, resolve h = .error (.unicode m) →
      check_url_ssrf resolve url = .error m) := by
  refine ⟨?_, ?_, ?_⟩
  · intro hres
    simp [check_url_ssrf, ssrfDecision, resolveAndCheck, hparse, hhost,
      hlit, hres]
  · intro hres
    simp [check_url_ssrf, ssrfDecision, resolveAndCheck, hparse, hhost,
      hlit, hres]
  · intro m hres
    simp [check_url_ssrf, ssrfDecision, resolveAndCheck, hparse, hhost,
      hlit, hres]

/-- C5 witness: all three failure modes on a concrete unresolvable name. -/
theorem check_url_ssrf_dns_failure_closed_witness :
    check_url_ssrf (fun _ => .error .gaierror) "http://no.such.host/".data =
      .ok (some "DNS resolution failed for URL hostname") ∧
    check_url_ssrf (fun _ => .ok []) "http://no.such.host/".data =
      .ok (some "DNS resolution returned no results") ∧
    check_url_ssrf (fun _ => .error (.unicode "label empty or too long"))
      "http://no.such.host/".data = .error "label empty or too long" := by
  refine ⟨?_, ?_, ?_⟩
  · exact (check_url_ssrf_dns_failure_closed "http://no.such.host/".data
      ⟨"http".data, "no.such.host".data, "/".data, [], [], []⟩
      "no.such.host".data (fun _ => .error .gaierror)
      rfl rfl rfl).1 rfl
  · exact (check_url_ssrf_dns_failure_closed "http://no.such.host/".data
      ⟨"http".data, "no.such.host".data, "/".data, [], [], []⟩
      "no.such.host".data (fun _ => .ok [])
      rfl rfl rfl).2.1 rfl
  · exact (check_url_ssrf_dns_failure_closed "http://no.such.host/".data
      ⟨"http".data, "no.such.host".data, "/".data, [], [], []⟩
      "no.such.host".data
      (fun _ => .error (.unicode "label empty or too long"))
      rfl rfl rfl).2.2 "label empty or too long" rfl

/-- C4 counterexample: for the public literal `8.8.8.8` the guard does not
decide from the literal alone — the resolver is still consulted, and its
outcome determines the verdict (a failing resolver even rejects the URL). -/
theorem check_url_ssrf_public_literal_still_resolves :
    ip_address "8.8.8.8".data = some (IPAddr.v4 134744072) ∧
    _is_public_ip (IPAddr.v4 134744072) = true ∧
    check_url_ssrf (fun _ => .error .gaierror) "http://8.8.8.8/".data =
      .ok (some "DNS resolution failed for URL hostname") ∧
    check_url_ssrf (fun h => .ok [h]) "http://8.8.8.8/".data = .ok none := by
  exact ⟨by decide, by decide, rfl, rfl⟩

/-- C4 amended: a public-literal hostname is allowed after the resolution
step confirms it — the guard falls through to `getaddrinfo` (which, for a
literal, reports the literal itself) and allows when every reported
address is public. -/
theorem check_url_ssrf_public_literal_allowed_via_resolution
    (resolve : Resolver) (url : List Char) (r : ParseResult) (h : List Char)
    (a : IPAddr) (addrs : List (List Char))
    (hparse : urlparseChars url = .ok r)
    (hhost : netlocHostname r.netloc = some h)
    (hlit : ip_address h = some a)
    (hpub : _is_public_ip a = true)
    (hres : resolve h = .ok addrs)
    (hne : addrs ≠ [])
    (hall : ∀ s ∈ addrs, ∃ b, ip_address s = some b ∧ _is_public_ip b = true) :
    check_url_ssrf resolve url = .ok none := by
  simp only [check_url_ssrf, ssrfDecision, resolveAndCheck, hparse, hhost,
    hlit, hpub, hres]
  simp [hne, (checkResolved_eq_none_iff addrs).mpr hall]

/-- C4 amended witness: `http://8.8.8.8/x` under the literal-faithful
resolver. -/
theorem check_url_ssrf_public_literal_allowed_via_resolution_witness :
    check_url_ssrf (fun h => .ok [h]) "http://8.8.8.8/x".data = .ok none := by
  refine check_url_ssrf_public_literal_allowed_via_resolution
    (fun h => .ok [h]) "http://8.8.8.8/x".data
    ⟨"http".data, "8.8.8.8".data, "/x".data, [], [], []⟩
    "8.8.8.8".data (.v4 134744072) ["8.8.8.8".data]
    rfl rfl (by decide) (by decide) rfl (by decide) ?_
  intro s hs
  rcases List.mem_singleton.mp hs with rfl
  exact ⟨.v4 134744072, by decide, by decide⟩

/-- C6 counterexample: two inputs make `check_url_ssrf` raise.  A
mismatched bracket makes `urlparse` raise `ValueError("Invalid IPv6 URL")`,
which `check_url_ssrf` does not catch (and the caller gate `is_valid_url`
raises identically); and a `urlparse`-accepted non-ASCII hostname with an
empty label makes `getaddrinfo` raise `UnicodeError` out of the `idna`
codec, which `except socket.gaierror` does not catch either. -/
theorem check_url_ssrf_bracket_raises :
    check_url_ssrf (fun _ => .error .gaierror) "http://[::1".data =
      .error "Invalid IPv6 URL" ∧
    is_valid_url "http://[::1".data = .error "Invalid IPv6 URL" ∧
    (urlparseChars "http://ä..com/".data =
      .ok ⟨"http".data, "ä..com".data, "/".data, [], [], []⟩ ∧
     check_url_ssrf (fun _ => .error (.unicode "label empty or too long"))
       "http://ä..com/".data = .error "label empty or too long") := by
  exact ⟨rfl, rfl, rfl, rfl⟩

/-- C6 amended: whenever `urlparse` itself accepts the input and the
`getaddrinfo` call does not raise a `UnicodeError` (the idna path that
`except socket.gaierror` does not catch), the guard returns a decision,
and a parse result without a hostname yields the no-hostname rejection. -/
theorem check_url_ssrf_total_on_parseable :
    (∀ (url : List Char) (resolve : Resolver) (r : ParseResult),
      urlparseChars url = .ok r →
      (∀ (h : List Char) (m : String), resolve h ≠ .error (.unicode m)) →
      ∃ o : Option String, check_url_ssrf resolve url = .ok o) ∧
    (∀ (url : List Char) (resolve : Resolver) (r : ParseResult),
      urlparseChars url = .ok r → netlocHostname r.netloc = none →
      check_url_ssrf resolve url = .ok (some "URL has no hostname")) := by
  constructor
  · intro url resolve r hparse hnou
    have hrac : ∀ hst : List Char,
        ∃ o : Option String, resolveAndCheck resolve hst = .ok o := by
      intro hst
      cases hr : resolve hst with
      | error e =>
        cases e with
        | gaierror =>
          exact ⟨some "DNS resolution failed for URL hostname",
            by simp [resolveAndCheck, hr]⟩
        | unicode m => exact absurd hr (hnou hst m)
      | ok addrs =>
        by_cases hn : addrs = []
        · exact ⟨some "DNS resolution returned no results",
            by simp [resolveAndCheck, hr, hn]⟩
        · exact ⟨checkResolved addrs, by simp [resolveAndCheck, hr, hn]⟩
    cases hh : netlocHostname r.netloc with
    | none =>
      exact ⟨some "URL has no hostname",
        by simp only [check_url_ssrf, ssrfDecision, hparse, hh]⟩
    | some hostname =>
      cases hip : ip_address hostname with
      | none =>
        obtain ⟨o, ho⟩ := hrac hostname
        refine ⟨o, ?_⟩
        simp only [check_url_ssrf, ssrfDecision, hparse, hh, hip]
        exact ho
      | some lit =>
        by_cases hp : (!_is_public_ip lit) = true
        · refine ⟨some "URL points to a non-public IP address", ?_⟩
          simp only [check_url_ssrf, ssrfDecision, hparse, hh, hip]
          rw [if_pos hp]
        · obtain ⟨o, ho⟩ := hrac hostname
          refine ⟨o, ?_⟩
          simp only [check_url_ssrf, ssrfDecision, hparse, hh, hip]
          rw [if_neg hp]
          exact ho
  · intro url resolve r hparse hhost
    simp only [check_url_ssrf, ssrfDecision, hparse, hhost]

/-- C6 amended witness: under a `UnicodeError`-free resolver the guard
decides a parseable URL, and a hostname-free URL is rejected, not crashed
on. -/
theorem check_url_ssrf_total_on_parseable_witness :
    (∃ o : Option String,
      check_url_ssrf (fun _ => .error .gaierror) "http://example.com/".data =
        .ok o) ∧
    check_url_ssrf (fun _ => .error .gaierror) "http:///x".data =
      .ok (some "URL has no hostname") := by
  constructor
  · refine check_url_ssrf_total_on_parseable.1 "http://example.com/".data
      (fun _ => .error .gaierror)
      ⟨"http".data, "example.com".data, "/".data, [], [], []⟩ rfl ?_
    intro h m hc
    simp at hc
  · exact check_url_ssrf_total_on_parseable.2 "http:///x".data
      (fun _ => .error .gaierror)
      ⟨"http".data, [], "/x".data, [], [], []⟩ rfl rfl

/-- C7: the guard never reads the scheme — two parse results with the same
netloc get the same decision, and concretely swapping `http` for `https`
in front of any URL tail changes nothing; the http/https allow-list is
`is_valid_url`, the caller-side gate. -/
theorem check_url_ssrf_scheme_independent :
    (∀ (resolve : Resolver) (r1 r2 : ParseResult), r1.netloc = r2.netloc →
      ssrfDecision resolve r1 = ssrfDecision resolve r2) ∧
    (∀ (resolve : Resolver) (rest : List Char),
      check_url_ssrf resolve ("http://".data ++ rest) =
        check_url_ssrf resolve ("https://".data ++ rest)) ∧
    (∀ (url : List Char) (r : ParseResult), urlparseChars url = .ok r →
      (is_valid_url url = .ok true ↔
        ((r.scheme = "http".data ∨ r.scheme = "https".data) ∧
          r.netloc ≠ []))) := by
  refine ⟨?_, ?_, ?_⟩
  · intro resolve r1 r2 hnet
    unfold ssrfDecision
    rw [hnet]
  · intro resolve rest
    have e1 : splitScheme (cleanUrl ("http://".data ++ rest)) =
        ("http".data, '/' :: '/' ::
          rest.filter (fun c => !(c = '\t' || c = '\r' || c = '\n'))) := rfl
    have e2 : splitScheme (cleanUrl ("https://".data ++ rest)) =
        ("https".data, '/' :: '/' ::
          rest.filter (fun c => !(c = '\t' || c = '\r' || c = '\n'))) := rfl
    unfold check_url_ssrf urlparseChars urlsplitChars
    rw [e1, e2]
    cases hb : urlsplitBody ('/' :: '/' ::
        rest.filter (fun c => !(c = '\t' || c = '\r' || c = '\n'))) with
    | error e => rfl
    | ok npqf =>
      obtain ⟨n, p, q, f⟩ := npqf
      simp only []
      have hu1 : usesParams.contains "http".data = true := by decide
      have hu2 : usesParams.contains "https".data = true := by decide
      rw [hu1, hu2]
      simp only [Bool.true_and]
      by_cases hsemi : p.contains ';' = true
      · rw [hsemi]
        rfl
      · rw [Bool.eq_false_iff.mpr hsemi]
        rfl
  · intro url r hparse
    have hval : is_valid_url url =
        .ok ((r.scheme == "http".data || r.scheme == "https".data) &&
          !r.netloc.isEmpty) := by
      unfold is_valid_url
      rw [hparse]
    rw [hval]
    constructor
    · intro hok
      injection hok with hok
      have h1 := (Bool.and_eq_true _ _).mp hok
      refine ⟨?_, ?_⟩
      · rcases (Bool.or_eq_true _ _).mp h1.1 with h | h
        · exact Or.inl (by simpa using h)
        · exact Or.inr (by simpa using h)
      · intro hnil
        rw [hnil] at h1
        simp at h1
    · rintro ⟨hs, hn⟩
      have h1 : (r.scheme == "http".data || r.scheme == "https".data) = true := by
        rcases hs with h | h <;> simp [h]
      have h2 : r.netloc.isEmpty = false := by
        cases hnl : r.netloc with
        | nil => exact absurd hnl hn
        | cons x t => rfl
      rw [h1, h2]
      rfl

/-- C7 witness: concrete instantiations of all three clauses. -/
theorem check_url_ssrf_scheme_independent_witness :
    ssrfDecision (fun _ => .error .gaierror)
        ⟨"http".data, "example.com".data, [], [], [], []⟩ =
      ssrfDecision (fun _ => .error .gaierror)
        ⟨"gopher".data, "example.com".data, "/z".data, [], [], []⟩ ∧
    check_url_ssrf (fun _ => .error .gaierror) "http://10.0.0.1/".data =
      check_url_ssrf (fun _ => .error .gaierror) "https://10.0.0.1/".data ∧
    ¬ is_valid_url "ftp://example.com/".data = .ok true := by
  refine ⟨check_url_ssrf_scheme_independent.1 (fun _ => .error .gaierror) _ _ rfl,
    check_url_ssrf_scheme_independent.2.1 (fun _ => .error .gaierror)
      "10.0.0.1/".data,
    ?_⟩
  intro hcontra
  have h := check_url_ssrf_scheme_independent.2.2 "ftp://example.com/".data
    ⟨"ftp".data, "example.com".data, "/".data, [], [], []⟩ rfl
  rcases (h.mp hcontra).1 with h2 | h2 <;> exact absurd h2 (by decide)

/-- C9 witness: a concrete title (with an embedded apostrophe, character
39) exercising every clause. -/
theorem sanitize_filename_spec_witness :
    sanitize_filename
        (" A<b>:c/d\\e|f?g*h".data ++ [Char.ofNat 39] ++ "i  ".data) =
      "Abcdefghi".data ∧
    (∀ c ∈ sanitize_filename
        (" A<b>:c/d\\e|f?g*h".data ++ [Char.ofNat 39] ++ "i  ".data),
      filenameBadChar c = false ∧ c ≠ Char.ofNat 39) := by
  constructor
  · rfl
  · exact (sanitize_filename_spec
      (" A<b>:c/d\\e|f?g*h".data ++ [Char.ofNat 39] ++ "i  ".data)).2.1

/-- C8: for every URL accepted by `urlparse`, the redacted URL re-parses
to exactly the original scheme, netloc (hence host) and path with empty
params, query and fragment, and the redacted text contains no `?` and no
`#` at all. -/
theorem redact_url_roundtrip (l : List Char) (r : ParseResult)
    (hparse0 : urlparseChars l = .ok r) :
    urlparseChars (redact_url l) =
      .ok ⟨r.scheme, r.netloc, r.path, [], [], []⟩ ∧
    (redact_url l).contains '?' = false ∧
    (redact_url l).contains '#' = false := by
  cases hsp : urlsplitChars l with
  | error e =>
    have hparse := hparse0
    unfold urlparseChars at hparse
    rw [hsp] at hparse
    simp at hparse
  | ok r0 =>
    have hparse := hparse0
    rw [urlparseChars_eq_split hsp] at hparse
    by_cases hc : (usesParams.contains r0.scheme && r0.path.contains ';') = true
    · rw [if_pos hc] at hparse
      injection hparse with hparse
      subst hparse
      have hred : redact_url l = urlunsplitChars r0.scheme r0.netloc
          ((splitparams r0.path).1) [] [] := by
        unfold redact_url
        rw [hparse0]
        rfl
      have hrt := urlsplit_roundtrip hsp (splitparams_fst_append r0.path)
      have hfin := urlparseChars_eq_split' hrt.1
      rw [splitparams_fst_idem r0.path] at hfin
      rw [hred]
      refine ⟨?_, hrt.2.1, hrt.2.2⟩
      by_cases hc2 : (usesParams.contains r0.scheme &&
          ((splitparams r0.path).1).contains ';') = true
      · rw [if_pos hc2] at hfin
        exact hfin
      · rw [if_neg hc2] at hfin
        exact hfin
    · rw [if_neg hc] at hparse
      injection hparse with hparse
      subst hparse
      have hred : redact_url l = urlunsplitChars r0.scheme r0.netloc
          r0.path [] [] := by
        unfold redact_url
        rw [hparse0]
        rfl
      have hrt := urlsplit_roundtrip hsp ⟨[], List.append_nil r0.path⟩
      have hfin := urlparseChars_eq_split' hrt.1
      rw [if_neg hc] at hfin
      rw [hred]
      exact ⟨hfin, hrt.2.1, hrt.2.2⟩

/-- C8 witness: a URL with userinfo, port, params, a secret-bearing query
and a fragment redacts to scheme+netloc+path and re-parses to the same
scheme, netloc and path. -/
theorem redact_url_roundtrip_witness :
    redact_url "https://u@ex.com:8080/a/b;par?token=s3cret#frag".data =
      "https://u@ex.com:8080/a/b".data ∧
    urlparseChars (redact_url
        "https://u@ex.com:8080/a/b;par?token=s3cret#frag".data) =
      .ok ⟨"https".data, "u@ex.com:8080".data, "/a/b".data, [], [], []⟩ ∧
    (redact_url "https://u@ex.com:8080/a/b;par?token=s3cret#frag".data).contains
      '?' = false := by
  refine ⟨rfl, ?_, ?_⟩
  · exact (redact_url_roundtrip
      "https://u@ex.com:8080/a/b;par?token=s3cret#frag".data
      ⟨"https".data, "u@ex.com:8080".data, "/a/b".data, "par".data,
        "token=s3cret".data, "frag".data⟩ rfl).1
  · exact (redact_url_roundtrip
      "https://u@ex.com:8080/a/b;par?token=s3cret#frag".data
      ⟨"https".data, "u@ex.com:8080".data, "/a/b".data, "par".data,
        "token=s3cret".data, "frag".data⟩ rfl).2.1

end Keen
